import Mathlib

/-!
Verification of `py-tree-sitter-type-provider`.

This file is a shallow embedding of the repository's three source files:

* `src/tree_sitter_type_provider/node_types.py` — the schema model
  (`Point`, `SimpleNodeType`, `NodeArgsType`, `NodeType`), the type-hint
  synthesis (`as_typehint` / `many_as_typehint`), and the structural
  equivalence checker (`assert_equivalent` / `is_equivalent`);
* `src/tree_sitter_type_provider/__init__.py` — the registry construction
  (`TreeSitterTypeProvider.__init__`), the cursor-driven tree conversion
  (`_from_tree_cursor`), and the `ParseError` diagnostic renderer.

Python dictionaries are embedded as insertion-ordered association lists
(`dictGet` / `dictSet`), Python exceptions as an `Except` error monad,
and the dynamically synthesized dataclasses as the `PyNode` value type,
whose attribute set mirrors the slots `NodeType.as_type` generates.
Byte decoding is abstracted away: every node carries its decoded text.
Schema field names are assumed distinct from the base dataclass attribute
names (`text`, `type_name`, `start_position`, `end_position`, `children`,
`contents`, `filename`), as they are in practice.
-/

/-- Insertion-ordered dictionary lookup (Python `d.get(k)` / `k in d`). -/
def dictGet {α : Type} : List (String × α) → String → Option α
  | [], _ => none
  | (k, v) :: rest, key => if k == key then some v else dictGet rest key

/-- Insertion-ordered dictionary update (Python `d[k] = v`): replaces the
value in place if the key is present, otherwise appends the new binding. -/
def dictSet {α : Type} : List (String × α) → String → α → List (String × α)
  | [], key, v => [(key, v)]
  | (k, w) :: rest, key, v =>
    if k == key then (k, v) :: rest else (k, w) :: dictSet rest key v

/-- Embeds `node_types.Point`: a zero-based (line, column) coordinate. -/
structure Point where
  line : Nat
  column : Nat
deriving DecidableEq, Repr

/-- Embeds `node_types.SimpleNodeType`: the minimal identity of a grammar
symbol. -/
structure SimpleNodeType where
  type_name : String
  named : Bool
deriving DecidableEq, Repr

/-- Embeds `node_types.NodeArgsType`: a cardinality contract over a set of
`SimpleNodeType`. -/
structure NodeArgsType where
  multiple : Bool := false
  required : Bool := false
  types : List SimpleNodeType := []
deriving DecidableEq, Repr

/-- Embeds the `NodeArgsType.named` property: true if any allowed
alternative is named. -/
def NodeArgsType.namedAny (a : NodeArgsType) : Bool :=
  a.types.any (·.named)

/-- Embeds `NodeArgsType.__bool__`: truthy iff `types` is nonempty. -/
def NodeArgsType.toBool (a : NodeArgsType) : Bool :=
  !a.types.isEmpty

/-- Embeds `node_types.NodeType` (which extends `SimpleNodeType`):
`fields` maps field names to contracts, `children` is the contract for
positional children, `subtypes` is the subtype set of abstract entries. -/
structure NodeType extends SimpleNodeType where
  fields : List (String × NodeArgsType) := []
  children : NodeArgsType := {}
  subtypes : List SimpleNodeType := []
deriving DecidableEq, Repr

/-- Embeds the `NodeType.is_abstract` property: `len(subtypes) > 0`. -/
def NodeType.is_abstract (nt : NodeType) : Bool :=
  !nt.subtypes.isEmpty

/-- Embeds the `NodeType.has_content` property:
`len(fields) > 0 or bool(children)`. -/
def NodeType.has_content (nt : NodeType) : Bool :=
  !nt.fields.isEmpty || nt.children.toBool

/-- Embeds `NodeType.__post_init__`: constructing a `NodeType` asserts that
it is not simultaneously abstract (nonempty `subtypes`) and content-bearing
(nonempty `fields` or truthy `children`); a failed assertion is modelled as
`none`. -/
def mkNodeType (type_name : String) (named : Bool)
    (fields : List (String × NodeArgsType)) (children : NodeArgsType)
    (subtypes : List SimpleNodeType) : Option NodeType :=
  let nt : NodeType :=
    { type_name := type_name, named := named, fields := fields,
      children := children, subtypes := subtypes }
  if nt.is_abstract && nt.has_content then none else some nt

/-- Embeds the default `as_class_name` function `snake_to_pascal` from
`TreeSitterTypeProvider.__init__`. -/
def snake_to_pascal (node_type_name : String) : String :=
  String.join ((node_type_name.splitOn "_").map String.capitalize)

/-- Result of `as_typehint`: a Python type hint, with a union of class
names represented as the list of its alternatives in first-occurrence
order (`typing.Union` flattens and deduplicates; a one-element union is
the bare type). -/
inductive TypeHint where
  | listT (ts : List String)
  | bareT (ts : List String)
  | optT (ts : List String)
deriving DecidableEq, Repr

/-- First-occurrence-order deduplication, as performed by `typing.Union`
when `functools.reduce` folds the alternatives together. -/
def dedupFirst (ts : List String) : List String :=
  ts.foldl (fun acc t => if acc.contains t then acc else acc ++ [t]) []

/-- Embeds `SimpleNodeType.many_as_typehint`: collapses a list of
alternatives to the class names of its named members — `none` when there
is no named alternative, otherwise the (deduplicated) union. -/
def many_as_typehint (tys : List SimpleNodeType) (acn : String → String) :
    Option (List String) :=
  let Ts := tys.filterMap fun t => if t.named then some (acn t.type_name) else none
  if Ts.isEmpty then none else some (dedupFirst Ts)

/-- Embeds `NodeArgsType.as_typehint`: when `is_field` is true the extra
set is ignored and multiplicity is taken from the contract; when false the
extra set is appended to the alternatives and multiplicity is forced true
whenever the extra set is nonempty. The result is a sequence, bare, or
optional hint depending on the adjusted multiplicity and `required`. -/
def NodeArgsType.as_typehint (a : NodeArgsType) ( is_field : Bool)
    (acn : String → String) (extra : List SimpleNodeType) : Option TypeHint :=
  let types_with_extra := if is_field then a.types else a.types ++ extra
  let multiple_with_extra := if is_field then a.multiple else !extra.isEmpty || a.multiple
  match many_as_typehint types_with_extra acn with
  | none => none
  | some T =>
    if multiple_with_extra then some (.listT T)
    else if a.required then some (.bareT T) else some (.optT T)

/-- The field names of a schema entry for which `NodeType.as_type`
synthesizes a dataclass slot: exactly the fields with at least one named
alternative (`if field.named` guards slot creation, and `as_typehint`
with `is_field=True` returns a hint iff some alternative is named). -/
def namedFieldKeys (ntflds : List (String × NodeArgsType)) : List String :=
  ntflds.filterMap fun p => if p.2.namedAny then some p.1 else none

/-- Embeds `ParseError._point_to_str`. -/
def pointToStr (p : Point) : String :=
  "line " ++ toString p.line ++ ", column " ++ toString p.column

/-- Embeds `ParseError._range`: single-line spans render as
`on line L between column C1 and C2`; multi-line spans render both
endpoints via `pointToStr` (with the leading space of the source
f-string). -/
def rangeStr (start_position end_position : Point) : String :=
  if start_position.line == end_position.line then
    "on line " ++ toString start_position.line ++ " between column "
      ++ toString start_position.column ++ " and " ++ toString end_position.column
  else
    " between " ++ pointToStr start_position ++ " and " ++ pointToStr end_position

/-- Split a character list at every newline character. -/
def splitLinesChars : List Char → List (List Char)
  | [] => [[]]
  | c :: cs =>
    if c = '\n' then [] :: splitLinesChars cs
    else
      match splitLinesChars cs with
      | [] => [[c]]
      | l :: ls => (c :: l) :: ls

/-- Embeds Python `str.splitlines` for newline-separated text (the only
separator occurring in the sources this model feeds it): the empty string
yields no lines, and a trailing newline does not open a final empty
line. -/
def pySplitlines (s : String) : List String :=
  if s.data.isEmpty then []
  else
    let parts := (splitLinesChars s.data).map String.mk
    if s.data.getLast? = some '\n' then parts.dropLast else parts

/-- One annotation line of `ParseError._annotated_region`: the annotation
has exactly one character per character of `line`, a caret at the columns
`c` with `start ≤ c ≤ stop` and a space elsewhere. -/
def caretLine (line : String) (start stop : Nat) : String :=
  String.mk ((List.range line.length).map fun c =>
    if c < start || stop < c then ' ' else '^')

/-- The `_annotated_lines` generator: each spanned source line followed by
its caret line; the caret range starts at `start.column` on the first line
and 0 elsewhere, and stops at `stop.column` on the last line and at the
line length elsewhere. -/
def annotatedLines (lines : List String) (start_position end_position : Point) :
    List String :=
  (lines.enum.map fun p =>
    let st := if p.1 == 0 then start_position.column else 0
    let en := if p.1 == lines.length - 1 then end_position.column else p.2.length
    [p.2, caretLine p.2 st en]).flatten

/-- Embeds `ParseError._annotated_region`: when `contents` is truthy
(present and nonempty) the spanned source lines are interleaved with caret
lines and joined by newlines; otherwise the raw matched `text` is
returned. -/
def annotatedRegion (contents : Option String) (text : String)
    (start_position end_position : Point) : String :=
  match contents with
  | some c =>
    if c.isEmpty then text
    else
      let lines := ((pySplitlines c).drop start_position.line).take
        (end_position.line + 1 - start_position.line)
      String.intercalate "\n" (annotatedLines lines start_position end_position)
  | none => text

/-- The indices at which a string carries a caret character (used to state
properties of the rendered annotation lines). -/
def caretIdxs (s : String) : List Nat :=
  s.toList.enum.filterMap fun p => if p.2 = '^' then some p.1 else none

/-- Embeds the external `tree_sitter` tree/cursor contract (spec §6): a
concrete syntax tree node with its type name, named flag, decoded text,
coordinates, the field name the cursor reports for the position it was
reached under (`None` at the root), and its child list in traversal
order. -/
inductive TSNode where
  | mk (type_name : String) ( is_named : Bool) (text : String)
      (start_point end_point : Point) (field_name : Option String)
      (children : List TSNode)

def TSNode.type_name : TSNode → String
  | .mk ty _ _ _ _ _ _ => ty

def TSNode.is_named : TSNode → Bool
  | .mk _ b _ _ _ _ _ => b

def TSNode.text : TSNode → String
  | .mk _ _ tx _ _ _ _ => tx

def TSNode.start_point : TSNode → Point
  | .mk _ _ _ sp _ _ _ => sp

def TSNode.end_point : TSNode → Point
  | .mk _ _ _ _ ep _ _ => ep

def TSNode.field_name : TSNode → Option String
  | .mk _ _ _ _ _ fn _ => fn

def TSNode.children : TSNode → List TSNode
  | .mk _ _ _ _ _ _ cs => cs

mutual
/-- A runtime typed-node value: an instance of one of the dataclasses
synthesized by `NodeType.as_type` (`node`), or an instance of the
`ParseError` dataclass, the class the registry binds to the `ERROR` type
name (`perror`). The `fields` map holds exactly the synthesized field
slots; `children` is present iff the class has the `Branch` children
slot. -/
inductive PyNode where
  | node (text : String) (type_name : String) (start_position end_position : Point)
      (fields : List (String × FieldValue)) (children : Option (List PyNode))
  | perror (text : String) (type_name : String) (start_position end_position : Point)
      (children : List PyNode) (contents : Option String) (filename : Option String)

/-- The value stored in one synthesized field slot: Python `None`, a bare
node, or a list of nodes. -/
inductive FieldValue where
  | null
  | one (n : PyNode)
  | many (ns : List PyNode)
end

/-- The failure modes of a conversion (spec §7): `typeError` for an
anonymous conversion root, `nodeTypeError` for an unregistered type name,
`keyError` for a reported field name absent from the schema entry,
`constructorError` for a dataclass instantiation rejecting its keyword
arguments, and `parseError` for the raised `ParseError` value. -/
inductive ConvErr where
  | typeError (type_name : String)
  | nodeTypeError (type_name : String)
  | keyError (field_name : String)
  | constructorError (type_name : String)
  | parseError (text : String) (type_name : String) (start_position end_position : Point)
      (children : List PyNode) (contents : Option String) (filename : Option String)

def PyNode.textOf : PyNode → String
  | .node tx _ _ _ _ _ => tx
  | .perror tx _ _ _ _ _ _ => tx

def PyNode.typeNameOf : PyNode → String
  | .node _ ty _ _ _ _ => ty
  | .perror _ ty _ _ _ _ _ => ty

/-- Python `getattr(node, "children")` guarded by `hasattr`: a synthesized
class has the slot iff it was constructed with it; `ParseError` (a
`Branch`) always has it. -/
def PyNode.childrenAttr : PyNode → Option (List PyNode)
  | .node _ _ _ _ _ ch => ch
  | .perror _ _ _ _ cs _ _ => some cs

/-- Python `getattr(node, field_name)` guarded by `hasattr` for a
synthesized field slot; `ParseError` has no synthesized field slots. -/
def PyNode.getAttr : PyNode → String → Option FieldValue
  | .node _ _ _ _ flds _, fn => dictGet flds fn
  | .perror _ _ _ _ _ _ _, _ => none

/-- Embeds the optional-field defaulting loop of `_from_tree_cursor`
(lines 201–207): every declared field that is neither required nor already
populated is set to the empty list when `multiple` and to `None`
otherwise. -/
def applyDefaults (ntflds : List (String × NodeArgsType))
    (flds : List (String × FieldValue)) : List (String × FieldValue) :=
  ntflds.foldl (fun acc p =>
    if !p.2.required && (dictGet acc p.1).isNone then
      dictSet acc p.1 (if p.2.multiple then .many [] else .null)
    else acc) flds

/-- Whether the keyword arguments assembled by `_from_tree_cursor` are
accepted by the synthesized dataclass constructor: the populated field
map must cover exactly the synthesized slots (a missing slot is a missing
required argument, an extra key an unexpected keyword argument — both
`TypeError`s). -/
def slotsMatch (ntflds : List (String × NodeArgsType))
    (flds : List (String × FieldValue)) : Bool :=
  (flds.all fun p => (namedFieldKeys ntflds).contains p.1)
    && ((namedFieldKeys ntflds).all fun k => (dictGet flds k).isSome)

/-- Embeds `self._node_class(tscursor.node)(**kwargs)`: the registry binds
`ERROR` to the `ParseError` constructor (whose `contents` and `filename`
keep their `None` defaults on this path, and whose required `children`
argument is supplied iff the entry has content), and every other type name
to its synthesized dataclass (whose `children` slot is supplied iff the
entry has content, and whose field slots must match the populated map). -/
def constructNode (nt : NodeType) (text ty : String) (s e : Point)
    (flds : List (String × FieldValue)) (kids : List PyNode) :
    Except ConvErr PyNode :=
  if ty == "ERROR" then
    if flds.isEmpty && nt.has_content then
      .ok (.perror text ty s e kids none none)
    else .error (.constructorError ty)
  else
    if slotsMatch nt.fields flds then
      .ok (.node text ty s e flds (if nt.has_content then some kids else none))
    else .error (.constructorError ty)

mutual
/-- Embeds `TreeSitterTypeProvider._from_tree_cursor`: an anonymous node
signals a `TypeError`; a named node resolves its schema entry, converts
its named children (accumulating field slots and positional children),
defaults the optional fields, and then either raises a `ParseError`
(when `raise_parse_error` is set and the type name is `ERROR`, carrying
the full source text and the supplied filename) or instantiates the
registered class. `contents` models the text of the tree root recovered
by `_root_node`'s parent walk. -/
def fromTreeCursor (reg : List (String × NodeType)) (raiseOn : Bool)
    (contents : String) (filename : Option String) : TSNode → Except ConvErr PyNode
  | .mk ty isn tx sp ep _fn cs =>
    if isn then
      match dictGet reg ty with
      | none => .error (.nodeTypeError ty)
      | some node_type =>
        match processChildren reg raiseOn contents filename node_type.fields cs [] [] with
        | .error e => .error e
        | .ok (flds0, kids) =>
          let flds := applyDefaults node_type.fields flds0
          if raiseOn && ty == "ERROR" then
            .error (.parseError tx ty sp ep kids (some contents) filename)
          else
            constructNode node_type tx ty sp ep flds kids
    else .error (.typeError ty)

/-- The child loop of `_from_tree_cursor` together with `convert_child`:
anonymous children are skipped; a named child is converted recursively and
then appended to the positional children when the cursor reports no field
name, and accumulated into its field slot otherwise — a first occurrence
under a `multiple` field stores a singleton list, later occurrences
append (the bare-`Node` and `None` promotion branches of `convert_child`
are kept verbatim), and a non-`multiple` field stores the bare child,
overwriting any earlier occurrence. -/
def processChildren (reg : List (String × NodeType)) (raiseOn : Bool)
    (contents : String) (filename : Option String)
    (ntflds : List (String × NodeArgsType)) :
    List TSNode → List (String × FieldValue) → List PyNode →
    Except ConvErr (List (String × FieldValue) × List PyNode)
  | [], flds, kids => .ok (flds, kids)
  | c :: rest, flds, kids =>
    if c.is_named then
      match fromTreeCursor reg raiseOn contents filename c with
      | .error e => .error e
      | .ok conv =>
        match c.field_name with
        | none => processChildren reg raiseOn contents filename ntflds rest flds (kids ++ [conv])
        | some fn =>
          match dictGet ntflds fn with
          | none => .error (.keyError fn)
          | some fty =>
            if fty.multiple then
              match dictGet flds fn with
              | some fv =>
                match fv with
                | .null => processChildren reg raiseOn contents filename ntflds rest
                    (dictSet flds fn (.one conv)) kids
                | .one x => processChildren reg raiseOn contents filename ntflds rest
                    (dictSet flds fn (.many [x, conv])) kids
                | .many xs => processChildren reg raiseOn contents filename ntflds rest
                    (dictSet flds fn (.many (xs ++ [conv]))) kids
              | none => processChildren reg raiseOn contents filename ntflds rest
                  (dictSet flds fn (.many [conv])) kids
            else processChildren reg raiseOn contents filename ntflds rest
              (dictSet flds fn (.one conv)) kids
    else processChildren reg raiseOn contents filename ntflds rest flds kids
end

/-- The reserved error-recovery entry inserted by
`TreeSitterTypeProvider.__init__`: named, no fields, children accepting
any of the supplied entries, multiple and required. -/
def errorNodeType (node_types : List NodeType) : NodeType :=
  { type_name := "ERROR", named := true, fields := [],
    children := { multiple := true, required := true,
                  types := node_types.map (·.toSimpleNodeType) },
    subtypes := [] }

/-- Embeds the `_node_types_by_type` registry built by
`TreeSitterTypeProvider.__init__`: all named entries indexed by type name,
then a synthesized named leaf entry for every declared extra type name not
already present, then the reserved `ERROR` entry (overwriting any entry of
that name). -/
def buildNodeTypesByType (node_types : List NodeType) (extra : List String) :
    List (String × NodeType) :=
  let d1 := node_types.foldl
    (fun d nt => if nt.named then dictSet d nt.type_name nt else d) []
  let d2 := extra.foldl
    (fun d ty =>
      if (dictGet d ty).isSome then d
      else dictSet d ty { type_name := ty, named := true }) d1
  dictSet d2 "ERROR" (errorNodeType node_types)

/-- Embeds `from_tree_sitter` applied to a whole tree (or its root node):
the cursor starts at the root, so the full source text recovered by
`_root_node` at error time is the root's own text. -/
def fromTree (reg : List (String × NodeType)) (raiseOn : Bool)
    (filename : Option String) (t : TSNode) : Except ConvErr PyNode :=
  fromTreeCursor reg raiseOn t.text filename t

/-- Dictionary lookup returning the value together with a size bound,
used to justify termination of the schema-driven equivalence recursion. -/
def dictGetSized {α : Type} [SizeOf α] :
    (l : List (String × α)) → String → Option {v : α // sizeOf v < sizeOf l}
  | [], _ => none
  | (k, v) :: rest, key =>
    if k == key then some ⟨v, by simp_arith⟩
    else
      match dictGetSized rest key with
      | none => none
      | some ⟨v, h⟩ => some ⟨v, by simp_arith; omega⟩

mutual
/-- Embeds `Node.is_equivalent` (true iff `assert_equivalent` raises no
`AssertionError`), dispatched on the first node's runtime class exactly as
Python method dispatch does: `ParseError` (the class registered for
`ERROR`) and the abstract capability markers inherit the no-op
`Node.assert_equivalent`, an unregistered name falls back to the base
behaviour, and a synthesized concrete class runs
`NodeType.assert_equivalent` closed over its own schema entry — text
comparison for entries without content, children and field comparison
otherwise. -/
def isEquivalent (reg : List (String × NodeType)) (n1 n2 : PyNode) : Bool :=
  match n1 with
  | .perror .. => true
  | .node _ ty1 _ _ flds1 ch1 =>
    if ty1 == "ERROR" then true
    else
      match dictGet reg ty1 with
      | none => true
      | some nt =>
        if nt.is_abstract then true
        else if nt.has_content then
          (match ch1 with
           | none => true
           | some c1 =>
             match n2.childrenAttr with
             | none => false
             | some c2 => argsEquiv reg nt.children (.many c1) (.many c2))
          && fieldsEquiv reg nt.fields flds1 n2
        else n1.textOf == n2.textOf
termination_by (sizeOf n1, 2, 0)

/-- Embeds `NodeArgsType.assert_equivalent`: a no-op unless the contract
has a named alternative; otherwise `None` must pair with `None`, a bare
node recurses on the pair, and a sequence must pair with a sequence of
the same length compared elementwise (`itertools.zip_longest` pads a
shorter side with `None`, which fails the `isinstance` assertion). -/
def argsEquiv (reg : List (String × NodeType)) (aty : NodeArgsType)
    (v1 v2 : FieldValue) : Bool :=
  if aty.namedAny then
    match v1, v2 with
    | .null, .null => true
    | .null, _ => false
    | .one c1, .one c2 => isEquivalent reg c1 c2
    | .one _, _ => false
    | .many l1, .many l2 => listEquiv reg l1 l2
    | .many _, _ => false
  else true
termination_by (sizeOf v1, 0, 0)

/-- The `zip_longest` loop of `NodeArgsType.assert_equivalent`: equal
lengths and elementwise equivalence. -/
def listEquiv (reg : List (String × NodeType)) (l1 l2 : List PyNode) : Bool :=
  match l1, l2 with
  | [], [] => true
  | a :: xs, b :: ys => isEquivalent reg a b && listEquiv reg xs ys
  | _, _ => false
termination_by (sizeOf l1, 0, 0)

/-- The field loop of `NodeType.assert_equivalent`: for every declared
field, the slot must be present on both nodes or absent from both, and
present pairs are compared per the field's contract. -/
def fieldsEquiv (reg : List (String × NodeType))
    (ntflds : List (String × NodeArgsType))
    (flds1 : List (String × FieldValue)) (n2 : PyNode) : Bool :=
  match ntflds with
  | [] => true
  | (fn, fty) :: rest =>
    (match dictGetSized flds1 fn, n2.getAttr fn with
     | some v1, some v2 => argsEquiv reg fty v1.1 v2
     | none, none => true
     | _, _ => false)
    && fieldsEquiv reg rest flds1 n2
termination_by (sizeOf flds1, 1, sizeOf ntflds)
end

/-- Whether equivalence dispatched on this node is the inherited no-op
`Node.assert_equivalent`: true for `ParseError` values and the `ERROR`
class, for abstract capability markers, and for unregistered type
names. -/
def passive (reg : List (String × NodeType)) : PyNode → Bool
  | .perror .. => true
  | .node _ ty _ _ _ _ =>
    ty == "ERROR" ||
    (match dictGet reg ty with
     | none => true
     | some nt => nt.is_abstract)

mutual
/-- A sufficient condition for the equivalence check to be symmetric on a
pair of nodes: either both dispatch to the inherited no-op comparison, or
both are instances of the same synthesized class and, recursively, every
pair of values the comparison actually descends into is shaped alike
(children attributes present on both or neither, and sequences of equal
length compared elementwise). Pairs the comparison rejects outright in
both directions (length or constructor mismatches) need no recursive
condition. -/
def sameShape (reg : List (String × NodeType)) (n1 n2 : PyNode) : Bool :=
  if passive reg n1 || passive reg n2 then passive reg n1 && passive reg n2
  else
    match n1, n2 with
    | .node _ ty1 _ _ flds1 ch1, .node _ ty2 _ _ flds2 ch2 =>
      ty1 == ty2 &&
      (match dictGet reg ty1 with
       | none => true
       | some nt =>
         if nt.has_content then
           (match ch1, ch2 with
            | some l1, some l2 =>
              !nt.children.namedAny || l1.length != l2.length || listShape reg l1 l2
            | none, none => true
            | _, _ => false)
           && fieldsShape reg nt.fields flds1 flds2
         else true)
    | _, _ => false
termination_by (sizeOf n1, 2, 0)

/-- Elementwise `sameShape` for equal-length child sequences. -/
def listShape (reg : List (String × NodeType)) (l1 l2 : List PyNode) : Bool :=
  match l1, l2 with
  | [], _ => true
  | _ :: _, [] => true
  | a :: xs, b :: ys => sameShape reg a b && listShape reg xs ys
termination_by (sizeOf l1, 0, 0)

/-- Per-field `sameShape` requirement: only value pairs the comparison
descends into (both present, named contract, matching constructors, equal
lengths) are constrained. -/
def fieldsShape (reg : List (String × NodeType))
    (ntflds : List (String × NodeArgsType))
    (flds1 flds2 : List (String × FieldValue)) : Bool :=
  match ntflds with
  | [] => true
  | (fn, fty) :: rest =>
    (if fty.namedAny then
      match dictGetSized flds1 fn, dictGet flds2 fn with
      | some v1, some v2 => valShape reg v1.1 v2
      | _, _ => true
     else true)
    && fieldsShape reg rest flds1 flds2
termination_by (sizeOf flds1, 1, sizeOf ntflds)

/-- `sameShape` lifted to a pair of field-slot values. -/
def valShape (reg : List (String × NodeType)) (v1 v2 : FieldValue) : Bool :=
  match v1, v2 with
  | .one c1, .one c2 => sameShape reg c1 c2
  | .many l1, .many l2 => l1.length != l2.length || listShape reg l1 l2
  | _, _ => true
termination_by (sizeOf v1, 0, 0)
end

/-- Replace a node's decoded text, leaving everything else unchanged
(used to state that the equivalence of content-bearing nodes never
consults their own raw text). -/
def PyNode.withText : PyNode → String → PyNode
  | .node _ ty s e flds ch, tx => .node tx ty s e flds ch
  | .perror _ ty s e cs c f, tx => .perror tx ty s e cs c f

/-- Replace a node's coordinates, leaving everything else unchanged (used
to state that equivalence never consults positions). -/
def PyNode.withPositions : PyNode → Point → Point → PyNode
  | .node tx ty _ _ flds ch, s, e => .node tx ty s e flds ch
  | .perror tx ty _ _ cs c f, s, e => .perror tx ty s e cs c f

/-- Whether the conversion entry point can reach a named `ERROR` node: the
node itself is named and either carries the reserved error type name or
has such a node among the named children the conversion descends into. -/
def errReachable : TSNode → Bool
  | .mk ty isn _ _ _ _ cs => isn && (ty == "ERROR" || cs.attach.any fun c => errReachable c.1)
decreasing_by
  have h := List.sizeOf_lt_of_mem c.2
  simp_arith
  omega

/-- The converted values of the named children of `cs` that the cursor
reports under field `fn`, in traversal order (the occurrences a field
slot accumulates). -/
def fieldOccurrences (reg : List (String × NodeType)) (raiseOn : Bool)
    (contents : String) (filename : Option String) (fn : String)
    (cs : List TSNode) : List PyNode :=
  cs.filterMap fun c =>
    if c.is_named && c.field_name == some fn then
      (fromTreeCursor reg raiseOn contents filename c).toOption
    else none

/-- Whether a conversion failure is a raised `ParseError` (as opposed to a
`TypeError`, `KeyError` or `NodeTypeError`). -/
def ConvErr.isParseErr : ConvErr → Bool
  | .parseError .. => true
  | _ => false

/-- Scenario entry: a named leaf `number` with no fields and no
children contract. -/
def numberNT : NodeType := { type_name := "number", named := true }

/-- Scenario entry: `sum` with non-multiple required fields `left` and
`right` of type `number`, and no children contract. -/
def sumNT : NodeType :=
  { type_name := "sum", named := true,
    fields := [("left", { required := true, types := [⟨"number", true⟩] }),
               ("right", { required := true, types := [⟨"number", true⟩] })] }

/-- The registry for the arithmetic scenario (spec §8): entries `number`
and `sum`, no declared extras. -/
def regArith : List (String × NodeType) := buildNodeTypesByType [numberNT, sumNT] []

/-- The input tree `sum(left=number:"1", right=number:"2")` over source
`1+2`, including the anonymous `+` token the converter must skip. -/
def sumTree : TSNode :=
  .mk "sum" true "1+2" ⟨0,0⟩ ⟨0,3⟩ none
    [.mk "number" true "1" ⟨0,0⟩ ⟨0,1⟩ (some "left") [],
     .mk "+" false "+" ⟨0,1⟩ ⟨0,2⟩ none [],
     .mk "number" true "2" ⟨0,2⟩ ⟨0,3⟩ (some "right") []]

def numberNode1 : PyNode := .node "1" "number" ⟨0,0⟩ ⟨0,1⟩ [] none

def numberNode2 : PyNode := .node "2" "number" ⟨0,2⟩ ⟨0,3⟩ [] none

/-- Scenario entry: `call`, content-bearing through a children contract
accepting `number` nodes. -/
def callNT : NodeType :=
  { type_name := "call", named := true,
    children := { multiple := true, required := false, types := [⟨"number", true⟩] } }

/-- Registry with a leaf entry and a children-bearing entry, used to
exhibit the asymmetry of the equivalence check. -/
def regCall : List (String × NodeType) := buildNodeTypesByType [numberNT, callNT] []

def numTreeX : TSNode := .mk "number" true "x" ⟨0,0⟩ ⟨0,1⟩ none []

def callTreeX : TSNode := .mk "call" true "x" ⟨0,0⟩ ⟨0,1⟩ none []

def leafNodeX : PyNode := .node "x" "number" ⟨0,0⟩ ⟨0,1⟩ [] none

def callNodeX : PyNode := .node "x" "call" ⟨0,0⟩ ⟨0,1⟩ [] (some [])

/-- Scenario entry: `wrap`, content-bearing through a single required
field `f` of type `number`, with an empty (hence non-named) children
contract. -/
def wrapNT : NodeType :=
  { type_name := "wrap", named := true,
    fields := [("f", { required := true, types := [⟨"number", true⟩] })] }

/-- Registry for the extra-children scenario: `wrap` and `number` plus the
declared extra type `comment`. -/
def regWrap : List (String × NodeType) :=
  buildNodeTypesByType [numberNT, wrapNT] ["comment"]

/-- `wrap` tree whose positional children pick up one extra `comment`
node. -/
def wrapTree1 : TSNode :=
  .mk "wrap" true "1 c" ⟨0,0⟩ ⟨0,3⟩ none
    [.mk "number" true "1" ⟨0,0⟩ ⟨0,1⟩ (some "f") [],
     .mk "comment" true "c" ⟨0,2⟩ ⟨0,3⟩ none []]

/-- `wrap` tree with no extra children. -/
def wrapTree2 : TSNode :=
  .mk "wrap" true "1" ⟨0,0⟩ ⟨0,1⟩ none
    [.mk "number" true "1" ⟨0,0⟩ ⟨0,1⟩ (some "f") []]

def commentNodeC : PyNode := .node "c" "comment" ⟨0,2⟩ ⟨0,3⟩ [] none

def wrapNode1 : PyNode :=
  .node "1 c" "wrap" ⟨0,0⟩ ⟨0,3⟩
    [("f", .one (.node "1" "number" ⟨0,0⟩ ⟨0,1⟩ [] none))] (some [commentNodeC])

def wrapNode2 : PyNode :=
  .node "1" "wrap" ⟨0,0⟩ ⟨0,1⟩
    [("f", .one (.node "1" "number" ⟨0,0⟩ ⟨0,1⟩ [] none))] (some [])

/-- A `wrap` node shaped like `wrapNode2` but with different texts, for
exercising the symmetry of the equivalence check. -/
def wrapNode2b : PyNode :=
  .node "2" "wrap" ⟨0,0⟩ ⟨0,1⟩
    [("f", .one (.node "2" "number" ⟨0,0⟩ ⟨0,1⟩ [] none))] (some [])

/-- Scenario entry: `foo` with a required field `op` all of whose allowed
alternatives are anonymous, so `as_type` synthesizes no slot for it. -/
def opNT : NodeType :=
  { type_name := "foo", named := true,
    fields := [("op", { required := true, types := [⟨"+", false⟩] })] }

def regOp : List (String × NodeType) := buildNodeTypesByType [opNT] []

/-- A `foo` node none of whose children populate the required field
`op`. -/
def opTree : TSNode := .mk "foo" true "x" ⟨0,0⟩ ⟨0,1⟩ none []

/-- Scenario entry: `lst` with a multiple optional field `item` of type
`number`. -/
def listNT : NodeType :=
  { type_name := "lst", named := true,
    fields := [("item", { multiple := true, required := false,
                          types := [⟨"number", true⟩] })] }

def regList : List (String × NodeType) := buildNodeTypesByType [numberNT, listNT] []

/-- A `lst` node with exactly one child under the multiple field
`item`. -/
def listTree1 : TSNode :=
  .mk "lst" true "1" ⟨0,0⟩ ⟨0,1⟩ none
    [.mk "number" true "1" ⟨0,0⟩ ⟨0,1⟩ (some "item") []]

/-- An `ERROR` node over the arithmetic registry, with one named child and
no field names. -/
def errTree : TSNode :=
  .mk "ERROR" true "1!" ⟨0,0⟩ ⟨0,2⟩ none
    [.mk "number" true "1" ⟨0,0⟩ ⟨0,1⟩ none [],
     .mk "!" false "!" ⟨0,1⟩ ⟨0,2⟩ none []]

theorem dictGet_dictSet_self {α : Type} (l : List (String × α)) (k : String) (v : α) :
    dictGet (dictSet l k v) k = some v := by
  induction l with
  | nil => simp [dictGet, dictSet]
  | cons p rest ih =>
    obtain ⟨k1, v1⟩ := p
    by_cases h : k1 = k
    · simp [dictGet, dictSet, h]
    · simp only [dictSet, dictGet]
      rw [if_neg (by simp [h]), dictGet, if_neg (by simp [h])]
      exact ih

theorem dictGet_dictSet_ne {α : Type} (l : List (String × α)) (k key : String) (v : α)
    (h : k ≠ key) : dictGet (dictSet l k v) key = dictGet l key := by
  induction l with
  | nil => simp [dictGet, dictSet, h]
  | cons p rest ih =>
    obtain ⟨k1, v1⟩ := p
    simp only [dictSet]
    by_cases h1 : k1 = k
    · rw [if_pos (by simp [h1])]
      subst h1
      simp only [dictGet]
      rw [if_neg (by simp [h]), if_neg (by simp [h])]
    · rw [if_neg (by simp [h1])]
      simp only [dictGet]
      by_cases h2 : k1 = key
      · rw [if_pos (by simp [h2]), if_pos (by simp [h2])]
      · rw [if_neg (by simp [h2]), if_neg (by simp [h2])]
        exact ih

theorem dictGet_mem {α : Type} (l : List (String × α)) (k : String) (v : α)
    (h : dictGet l k = some v) : (k, v) ∈ l := by
  induction l with
  | nil => exact absurd h (by simp [dictGet])
  | cons p rest ih =>
    obtain ⟨k1, v1⟩ := p
    rw [dictGet] at h
    by_cases h1 : k1 = k
    · rw [if_pos (by simp [h1])] at h
      obtain rfl : v1 = v := Option.some.inj h
      exact h1 ▸ List.mem_cons_self _ _
    · rw [if_neg (by simp [h1])] at h
      exact List.mem_cons_of_mem _ (ih h)

theorem mem_dedupFirst (x : String) (l : List String) :
    x ∈ dedupFirst l ↔ x ∈ l := by
  unfold dedupFirst
  suffices h : ∀ acc : List String,
      x ∈ l.foldl (fun acc t => if acc.contains t then acc else acc ++ [t]) acc ↔
        x ∈ acc ∨ x ∈ l by
    simpa using h []
  induction l with
  | nil => simp
  | cons a rest ih =>
    intro acc
    simp only [List.foldl_cons]
    by_cases h : acc.contains a
    · rw [if_pos h, ih]
      simp at h
      constructor
      · rintro (h1 | h2)
        · exact Or.inl h1
        · exact Or.inr (List.mem_cons_of_mem _ h2)
      · rintro (h1 | h2)
        · exact Or.inl h1
        · rcases List.mem_cons.mp h2 with h3 | h3
          · exact Or.inl (h3 ▸ h)
          · exact Or.inr h3
    · rw [if_neg h, ih]
      simp [List.mem_cons, or_assoc, or_comm, or_left_comm]

theorem mem_caretIdxs_caretLine (line : String) (st en i : Nat) :
    i ∈ caretIdxs (caretLine line st en) ↔
      i < line.length ∧ st ≤ i ∧ i ≤ en := by
  unfold caretIdxs caretLine
  have hmk : ∀ l : List Char, (String.mk l).toList = l := fun _ => rfl
  rw [List.mem_filterMap]
  constructor
  · rintro ⟨⟨j, ch⟩, hmem, hif⟩
    split at hif
    · rename_i hch
      obtain rfl : i = j := (Option.some.inj hif).symm
      rw [hmk, List.mk_mem_enum_iff_getElem?, List.getElem?_map] at hmem
      by_cases hlt : i < line.length
      · rw [List.getElem?_range hlt] at hmem
        simp only [Option.map_some', Option.some.injEq] at hmem
        subst hch
        by_cases hcond : i < st ∨ en < i
        · rw [if_pos (by simpa using hcond)] at hmem
          exact absurd hmem (by decide)
        · push_neg at hcond
          exact ⟨hlt, hcond.1, hcond.2⟩
      · rw [List.getElem?_eq_none (by simpa using Nat.le_of_not_lt hlt)] at hmem
        exact Option.noConfusion hmem
    · exact Option.noConfusion hif
  · rintro ⟨hlt, hst, hen⟩
    refine ⟨(i, '^'), ?_, rfl⟩
    rw [hmk, List.mk_mem_enum_iff_getElem?, List.getElem?_map, List.getElem?_range hlt]
    simp only [Option.map_some', Option.some.injEq]
    rw [if_neg (by simp only [Bool.or_eq_true, decide_eq_true_eq, not_or, Nat.not_lt]; exact ⟨hst, hen⟩)]

/-- Claim C9: a `NodeType` whose `subtypes` list is nonempty and which
simultaneously has nonempty `fields` or truthy `children` fails the
construction-time assertion; any other combination succeeds, so every
constructed `NodeType` satisfies the abstract/content mutual-exclusion
invariant. -/
theorem C9_theorem (ty : String) (named : Bool) (flds : List (String × NodeArgsType))
    (ch : NodeArgsType) (subs : List SimpleNodeType) :
    (mkNodeType ty named flds ch subs = none ↔
      subs ≠ [] ∧ (flds ≠ [] ∨ ch.types ≠ [])) ∧
    (∀ nt, mkNodeType ty named flds ch subs = some nt →
      ¬(nt.is_abstract = true ∧ nt.has_content = true)) := by
  constructor
  · simp only [mkNodeType, NodeType.is_abstract, NodeType.has_content, NodeArgsType.toBool]
    split <;> rename_i h <;> simp_all [List.isEmpty_iff]
  · intro nt hnt
    simp only [mkNodeType] at hnt
    split at hnt
    · exact absurd hnt (by simp)
    · rename_i h
      obtain rfl : _ = nt := Option.some.inj hnt
      simpa using h

/-- Witness for C9: a concrete abstract-and-content entry is rejected, and
a concrete content-only entry is accepted with the invariant holding. -/
theorem C9_witness :
    mkNodeType "x" true [("f", {})] {} [⟨"a", true⟩] = none ∧
    ¬(({ type_name := "y", named := true, fields := [("f", {})], children := {},
         subtypes := [] } : NodeType).is_abstract = true ∧
      ({ type_name := "y", named := true, fields := [("f", {})], children := {},
         subtypes := [] } : NodeType).has_content = true) :=
  ⟨( C9_theorem "x" true [("f", {})] {} [⟨"a", true⟩]).1.mpr
      ⟨by simp, Or.inl (by simp)⟩,
   ( C9_theorem "y" true [("f", {})] {} []).2 _ rfl⟩

/-- Claim C3: `as_typehint` with `is_field=True` never adds the extra set
and leaves multiplicity unchanged (the result is a sequence hint exactly
when the contract is `multiple`), while with `is_field=False` and a
nonempty extra set every produced hint is a sequence hint whose
alternatives include every named extra type. -/
theorem C3_theorem (a : NodeArgsType) (acn : String → String) (extra : List SimpleNodeType) :
    (a.as_typehint true acn extra = a.as_typehint true acn []) ∧
    ((∃ ts, a.as_typehint true acn extra = some (.listT ts)) ↔
      (a.multiple = true ∧ (a.as_typehint true acn extra).isSome)) ∧
    (extra ≠ [] → ∀ th, a.as_typehint false acn extra = some th →
      ∃ ts, th = .listT ts ∧
        ∀ e ∈ extra, e.named = true → acn e.type_name ∈ ts) := by
  refine ⟨rfl, ?_, ?_⟩
  · simp only [NodeArgsType.as_typehint, if_true]
    match h : many_as_typehint a.types acn with
    | none => simp
    | some T =>
      cases hm : a.multiple <;> cases hr : a.required <;> simp
  · intro hex th hth
    simp only [NodeArgsType.as_typehint, if_false, Bool.false_eq_true] at hth
    have hne : extra.isEmpty = false := by
      cases extra with
      | nil => exact absurd rfl hex
      | cons x xs => simp
    rw [hne] at hth
    simp only [Bool.not_false, Bool.true_or] at hth
    match h : many_as_typehint (a.types ++ extra) acn with
    | none => rw [h] at hth; exact absurd hth (by simp)
    | some T =>
      rw [h] at hth
      simp at hth
      refine ⟨T, hth.symm, ?_⟩
      intro e he hnamed
      simp only [many_as_typehint] at h
      split at h
      · exact absurd h (by simp)
      · obtain rfl : _ = T := Option.some.inj h
        rw [mem_dedupFirst]
        rw [List.mem_filterMap]
        exact ⟨e, List.mem_append_right _ he, by simp [hnamed]⟩

/-- Witness for C3: for a non-multiple required field contract over
`number` and the declared extra `comment`, the field hint ignores the
extras and the children hint is a sequence hint containing the extra. -/
theorem C3_witness :
    (NodeArgsType.as_typehint { required := true, types := [⟨"number", true⟩] }
        true id [⟨"comment", true⟩]
      = NodeArgsType.as_typehint { required := true, types := [⟨"number", true⟩] }
        true id []) ∧
    ∃ ts, (TypeHint.listT ["number", "comment"]) = .listT ts ∧
      ∀ e ∈ ([⟨"comment", true⟩] : List SimpleNodeType), e.named = true →
        id e.type_name ∈ ts :=
  ⟨(C3_theorem { required := true, types := [⟨"number", true⟩] } id [⟨"comment", true⟩]).1,
   (C3_theorem { required := true, types := [⟨"number", true⟩] } id [⟨"comment", true⟩]).2.2
      (by simp) (.listT ["number", "comment"]) (by rfl)⟩

/-- Claim C2: converting `sum(left=number:"1", right=number:"2")` over
source `1+2` yields a `Sum` value with text `1+2`, field `left` a
`Number` with text `1`, field `right` a `Number` with text `2`, and an
empty positional-children sequence. -/
theorem C2_theorem : fromTree regArith false none sumTree =
    .ok (.node "1+2" "sum" ⟨0,0⟩ ⟨0,3⟩
      [("left", .one numberNode1), ("right", .one numberNode2)]
      (some [])) := by rfl

/-- Counterexample for C8: for the single-line source `foo(bar` and the
error span over columns 3–7, the rendered annotation line is `   ^^^^`,
whose caret positions are exactly 3 through 6 — not 3 through 7 as the
claim states (the annotation has one character per source-line character,
so no position 7 exists). -/
theorem C8_counterexample :
    annotatedRegion (some "foo(bar") "foo(bar" ⟨0,3⟩ ⟨0,7⟩ = "foo(bar\n   ^^^^" ∧
    caretIdxs "   ^^^^" = [3, 4, 5, 6] ∧
    caretIdxs "   ^^^^" ≠ [3, 4, 5, 6, 7] :=
  ⟨by decide, by decide, by decide⟩

/-- Claim C8 (amended): a single-line span renders its header as
`on line L between column C1 and C2` and, when full source text is
captured, the spanned source line is followed by an annotation line whose
carets sit exactly at the columns of `[startColumn, endColumn]` that
exist on the line (columns beyond the line length receive no caret);
multi-line spans render both endpoints as `line L, column C`. -/
theorem C8_theorem (c tx : String) (s e : Point)
    (hline : s.line = e.line) (hne : c.isEmpty = false)
    (hlt : s.line < (pySplitlines c).length) :
    (annotatedRegion (some c) tx s e =
      ((pySplitlines c).getD s.line "") ++ "\n" ++
        caretLine ((pySplitlines c).getD s.line "") s.column e.column) ∧
    (rangeStr s e = "on line " ++ toString s.line ++ " between column "
      ++ toString s.column ++ " and " ++ toString e.column) ∧
    (∀ i, i ∈ caretIdxs (caretLine ((pySplitlines c).getD s.line "") s.column e.column) ↔
      i < ((pySplitlines c).getD s.line "").length ∧ s.column ≤ i ∧ i ≤ e.column) ∧
    (∀ s2 e2 : Point, s2.line ≠ e2.line →
      rangeStr s2 e2 = " between " ++ pointToStr s2 ++ " and " ++ pointToStr e2) := by
  refine ⟨?_, ?_, fun i => mem_caretIdxs_caretLine _ _ _ i, ?_⟩
  · unfold annotatedRegion
    simp only [hne, Bool.false_eq_true, if_false]
    rw [← hline]
    have h1 : s.line + 1 - s.line = 1 := by omega
    rw [h1, List.drop_eq_getElem_cons hlt, List.take_succ_cons, List.take_zero]
    rw [List.getD_eq_getElem _ _ hlt]
    rfl
  · unfold rangeStr
    rw [if_pos (by simpa using hline)]
  · intro s2 e2 hne2
    unfold rangeStr
    rw [if_neg (by simpa using hne2)]

/-- Witness for C8: the amended theorem applied to the `foo(bar` scenario
with span columns 3–7. -/
theorem C8_witness :
    ("foo(bar".isEmpty = false) ∧ (0 < (pySplitlines "foo(bar").length) ∧
    (annotatedRegion (some "foo(bar") "foo(bar" ⟨0,3⟩ ⟨0,7⟩ =
      ((pySplitlines "foo(bar").getD 0 "") ++ "\n" ++
        caretLine ((pySplitlines "foo(bar").getD 0 "") 3 7) :=
  ⟨by decide, by decide,
   ( C8_theorem "foo(bar" "foo(bar" ⟨0,3⟩ ⟨0,7⟩ rfl (by decide) (by decide)).1⟩

theorem applyDefaults_cons (k : String) (a : NodeArgsType)
    (ntflds : List (String × NodeArgsType)) (flds : List (String × FieldValue)) :
    applyDefaults ((k, a) :: ntflds) flds =
      applyDefaults ntflds
        (if (!a.required && (dictGet flds k).isNone) = true then
          dictSet flds k (if a.multiple = true then FieldValue.many [] else FieldValue.null)
        else flds) := rfl

theorem applyDefaults_keep (ntflds : List (String × NodeArgsType))
    (flds : List (String × FieldValue)) (fn : String) (v : FieldValue)
    (h : dictGet flds fn = some v) :
    dictGet (applyDefaults ntflds flds) fn = some v := by
  induction ntflds generalizing flds with
  | nil => simpa [applyDefaults]
  | cons p rest ih =>
    obtain ⟨k, a⟩ := p
    rw [applyDefaults_cons]
    apply ih
    by_cases hk : k = fn
    · obtain rfl : fn = k := hk.symm
      simp [h]
    · split
      · rw [dictGet_dictSet_ne _ _ _ _ hk]
        exact h
      · exact h

theorem applyDefaults_absent (ntflds : List (String × NodeArgsType))
    (flds : List (String × FieldValue)) (fn : String)
    (h : ∀ a, (fn, a) ∉ ntflds) :
    dictGet (applyDefaults ntflds flds) fn = dictGet flds fn := by
  induction ntflds generalizing flds with
  | nil => rfl
  | cons p rest ih =>
    obtain ⟨k, a⟩ := p
    rw [applyDefaults_cons]
    rw [ih _ (fun a1 hmem => h a1 (List.mem_cons_of_mem _ hmem))]
    have hk : k ≠ fn := fun hkk => h a (by simp [hkk])
    split
    · rw [dictGet_dictSet_ne _ _ _ _ hk]
    · rfl

theorem applyDefaults_missing (ntflds : List (String × NodeArgsType))
    (flds : List (String × FieldValue)) (fn : String) (fty : NodeArgsType)
    (hnd : (ntflds.map Prod.fst).Nodup)
    (hget : dictGet ntflds fn = some fty)
    (hmiss : dictGet flds fn = none) :
    dictGet (applyDefaults ntflds flds) fn =
      if fty.required then none
      else some (if fty.multiple then FieldValue.many [] else FieldValue.null) := by
  induction ntflds generalizing flds with
  | nil => exact absurd hget (by simp [dictGet])
  | cons p rest ih =>
    obtain ⟨k, a⟩ := p
    rw [List.map_cons, List.nodup_cons] at hnd
    rw [applyDefaults_cons]
    by_cases hk : k = fn
    · obtain rfl : fn = k := hk.symm
      rw [dictGet, if_pos (by simp)] at hget
      obtain rfl : fty = a := (Option.some.inj hget).symm
      have habs : ∀ a1, (fn, a1) ∉ rest := by
        intro a1 hmem
        exact hnd.1 (List.mem_map.mpr ⟨(fn, a1), hmem, rfl⟩)
      cases hreq : fty.required with
      | true =>
        simp only [Bool.not_true, Bool.false_and, Bool.false_eq_true, if_false]
        rw [applyDefaults_absent _ _ _ habs]
        simp [hmiss]
      | false =>
        simp only [hmiss, Option.isNone_none, Bool.not_false, Bool.true_and, if_true]
        rw [applyDefaults_keep _ _ _ _ (dictGet_dictSet_self _ _ _)]
        simp
    · rw [dictGet, if_neg (by simp [hk])] at hget
      apply ih _ hnd.2 hget
      split
      · rw [dictGet_dictSet_ne _ _ _ _ hk]
        exact hmiss
      · exact hmiss

theorem processChildren_multiple (reg : List (String × NodeType)) (raiseOn : Bool)
    (ct : String) (f : Option String) (ntflds : List (String × NodeArgsType))
    (fn : String) (fty : NodeArgsType)
    (hfty : dictGet ntflds fn = some fty) (hmul : fty.multiple = true) :
    ∀ (cs : List TSNode) (flds : List (String × FieldValue)) (kids : List PyNode)
      (res : List (String × FieldValue) × List PyNode),
      processChildren reg raiseOn ct f ntflds cs flds kids = .ok res →
      (dictGet flds fn = none →
        dictGet res.1 fn =
          if (fieldOccurrences reg raiseOn ct f fn cs).isEmpty then none
          else some (.many (fieldOccurrences reg raiseOn ct f fn cs))) ∧
      (∀ pre, dictGet flds fn = some (.many pre) →
        dictGet res.1 fn = some (.many (pre ++ fieldOccurrences reg raiseOn ct f fn cs))) := by
  intro cs
  induction cs with
  | nil =>
    intro flds kids res hres
    obtain rfl : (flds, kids) = res := by simpa [processChildren] using hres
    constructor
    · intro hnone
      simpa [fieldOccurrences] using hnone
    · intro pre hpre
      simpa [fieldOccurrences] using hpre
  | cons c rest ih =>
    intro flds kids res hres
    simp only [processChildren] at hres
    by_cases hn : c.is_named = true
    · rw [if_pos hn] at hres
      cases hconv : fromTreeCursor reg raiseOn ct f c with
      | error e =>
        rw [hconv] at hres
        exact absurd hres (by simp)
      | ok conv =>
        rw [hconv] at hres
        dsimp only at hres
        have hoccs : fieldOccurrences reg raiseOn ct f fn (c :: rest) =
            (if c.field_name = some fn then [conv] else []) ++
              fieldOccurrences reg raiseOn ct f fn rest := by
          unfold fieldOccurrences
          rw [List.filterMap_cons]
          by_cases hfn : c.field_name = some fn
          · simp [hn, hfn, hconv, Except.toOption]
          · simp [hn, hfn]
        cases hcf : c.field_name with
        | none =>
          rw [hcf] at hres
          dsimp only at hres
          rw [hoccs, hcf, if_neg (show ¬((none : Option String) = some fn) from fun h => Option.noConfusion h), List.nil_append]
          exact ih flds (kids ++ [conv]) res hres
        | some fn2 =>
          rw [hcf] at hres
          dsimp only at hres
          rw [hoccs, hcf]
          by_cases heq : fn2 = fn
          · obtain rfl : fn = fn2 := heq.symm
            rw [hfty] at hres
            dsimp only at hres
            rw [hmul, if_pos rfl] at hres
            rw [if_pos (rfl : (some fn : Option String) = some fn)]
            constructor
            · intro hnone
              rw [hnone] at hres
              dsimp only at hres
              have h2 := (ih _ kids res hres).2 [conv] (dictGet_dictSet_self _ _ _)
              rw [h2]
              simp
            · intro pre hpre
              rw [hpre] at hres
              dsimp only at hres
              have h2 := (ih _ kids res hres).2 (pre ++ [conv]) (dictGet_dictSet_self _ _ _)
              rw [h2]
              simp
          · rw [if_neg (show ¬((some fn2 : Option String) = some fn) from fun h => heq (Option.some.inj h)), List.nil_append]
            cases hfty2 : dictGet ntflds fn2 with
            | none =>
              rw [hfty2] at hres
              dsimp only at hres
              exact absurd hres (by simp)
            | some fty2 =>
              rw [hfty2] at hres
              dsimp only at hres
              have hpres : ∀ v, dictGet (dictSet flds fn2 v) fn = dictGet flds fn :=
                fun v => dictGet_dictSet_ne _ _ _ _ heq
              cases hm2 : fty2.multiple with
              | true =>
                rw [hm2, if_pos rfl] at hres
                cases hex : dictGet flds fn2 with
                | none =>
                  rw [hex] at hres
                  dsimp only at hres
                  have hrec := ih _ kids res hres
                  rw [hpres] at hrec
                  exact hrec
                | some fv =>
                  rw [hex] at hres
                  dsimp only at hres
                  cases fv with
                  | null =>
                    have hrec := ih _ kids res hres
                    rw [hpres] at hrec
                    exact hrec
                  | one x =>
                    have hrec := ih _ kids res hres
                    rw [hpres] at hrec
                    exact hrec
                  | many xs =>
                    have hrec := ih _ kids res hres
                    rw [hpres] at hrec
                    exact hrec
              | false =>
                rw [hm2, if_neg (by simp)] at hres
                have hrec := ih _ kids res hres
                rw [hpres] at hrec
                exact hrec
    · rw [if_neg hn] at hres
      have hn2 : c.is_named = false := by simpa using hn
      have hoccs2 : fieldOccurrences reg raiseOn ct f fn (c :: rest) =
          fieldOccurrences reg raiseOn ct f fn rest := by
        unfold fieldOccurrences
        rw [List.filterMap_cons]
        simp [hn2]
      rw [hoccs2]
      exact ih flds kids res hres

/-- Claim C7 (amended): after traversal, every declared field that was not
populated is defaulted to an empty sequence (multiple) or an absent value
(non-multiple) when not required; a required field is left unset, and when
it has at least one named alternative — so the synthesized class has a
slot for it — instantiating the constructor fails on the missing data (a
field with no named alternatives has no slot, so construction does not
fail on it). -/
theorem C7_theorem :
    (∀ (ntflds : List (String × NodeArgsType)) (flds : List (String × FieldValue))
       (fn : String) (fty : NodeArgsType),
      (ntflds.map Prod.fst).Nodup →
      dictGet ntflds fn = some fty → dictGet flds fn = none →
      dictGet (applyDefaults ntflds flds) fn =
        if fty.required then none
        else some (if fty.multiple then FieldValue.many [] else FieldValue.null)) ∧
    (∀ (nt : NodeType) (tx ty : String) (sp ep : Point)
       (flds : List (String × FieldValue)) (kids : List PyNode)
       (fn : String) (fty : NodeArgsType),
      (ty == "ERROR") = false → dictGet nt.fields fn = some fty →
      fty.namedAny = true → dictGet flds fn = none →
      constructNode nt tx ty sp ep flds kids = .error (.constructorError ty)) := by
  constructor
  · exact fun ntflds flds fn fty h1 h2 h3 => applyDefaults_missing ntflds flds fn fty h1 h2 h3
  · intro nt tx ty sp ep flds kids fn fty hty hget hnamed hmiss
    unfold constructNode
    rw [hty]
    simp only [Bool.false_eq_true, if_false]
    have hmem : fn ∈ namedFieldKeys nt.fields := by
      unfold namedFieldKeys
      rw [List.mem_filterMap]
      exact ⟨(fn, fty), dictGet_mem _ _ _ hget, by simp [hnamed]⟩
    have hall : ((namedFieldKeys nt.fields).all fun k => (dictGet flds k).isSome) = false := by
      rw [List.all_eq_false]
      exact ⟨fn, hmem, by simp [hmiss]⟩
    unfold slotsMatch
    rw [hall, Bool.and_false]
    simp

/-- Claim C1 (amended): for a multiple-cardinality field, the value stored
after conversion is determined by the occurrences of the field among named
children in traversal order: 0 occurrences yield the empty-sequence
default when the field is not required (and no value when required), and
k ≥ 1 occurrences yield the k-element ordered sequence of the converted
children — in particular a single occurrence is stored as a singleton
sequence, not as a bare value. -/
theorem C1_theorem (reg : List (String × NodeType)) (raiseOn : Bool)
    (ct : String) (f : Option String) (ntflds : List (String × NodeArgsType))
    (fn : String) (fty : NodeArgsType) (cs : List TSNode)
    (flds0 : List (String × FieldValue)) (kids : List PyNode)
    (hnd : (ntflds.map Prod.fst).Nodup)
    (hfty : dictGet ntflds fn = some fty) (hmul : fty.multiple = true)
    (hpc : processChildren reg raiseOn ct f ntflds cs [] [] = .ok (flds0, kids)) :
    (dictGet (applyDefaults ntflds flds0) fn =
      if (fieldOccurrences reg raiseOn ct f fn cs).isEmpty then
        (if fty.required then none else some (.many []))
      else some (.many (fieldOccurrences reg raiseOn ct f fn cs))) ∧
    (∀ v1, fieldOccurrences reg raiseOn ct f fn cs = [v1] →
      dictGet (applyDefaults ntflds flds0) fn = some (.many [v1])) := by
  have hacc := (processChildren_multiple reg raiseOn ct f ntflds fn fty hfty hmul cs
    [] [] (flds0, kids) hpc).1 rfl
  have hmain : dictGet (applyDefaults ntflds flds0) fn =
      if (fieldOccurrences reg raiseOn ct f fn cs).isEmpty then
        (if fty.required then none else some (.many []))
      else some (.many (fieldOccurrences reg raiseOn ct f fn cs)) := by
    cases hocc : (fieldOccurrences reg raiseOn ct f fn cs).isEmpty with
    | true =>
      rw [hocc, if_pos rfl] at hacc
      rw [if_pos rfl]
      rw [applyDefaults_missing ntflds flds0 fn fty hnd hfty hacc]
      rw [hmul]
      cases fty.required <;> simp
    | false =>
      rw [hocc, if_neg (by simp)] at hacc
      rw [if_neg (by simp)]
      exact applyDefaults_keep _ _ _ _ hacc
  refine ⟨hmain, ?_⟩
  intro v1 hocc
  rw [hmain, hocc]
  simp

/-- Counterexample for C1: converting a node with exactly one child under
the multiple field `item` stores the singleton sequence `[Number]`, which
is not the bare converted child the claim requires. -/
theorem C1_counterexample :
    fromTree regList false none listTree1 =
      .ok (.node "1" "lst" ⟨0,0⟩ ⟨0,1⟩
        [("item", .many [.node "1" "number" ⟨0,0⟩ ⟨0,1⟩ [] none])] (some [])) ∧
    FieldValue.many [PyNode.node "1" "number" ⟨0,0⟩ ⟨0,1⟩ [] none] ≠
      FieldValue.one (PyNode.node "1" "number" ⟨0,0⟩ ⟨0,1⟩ [] none) :=
  ⟨by rfl, by simp⟩

/-- Witness for C1: the amended theorem applied to the one-occurrence
`lst` scenario yields the singleton sequence. -/
theorem C1_witness :
    (fieldOccurrences regList false "1" none "item" listTree1.children =
      [.node "1" "number" ⟨0,0⟩ ⟨0,1⟩ [] none]) ∧
    dictGet (applyDefaults listNT.fields
        [("item", .many [.node "1" "number" ⟨0,0⟩ ⟨0,1⟩ [] none])]) "item" =
      some (.many [.node "1" "number" ⟨0,0⟩ ⟨0,1⟩ [] none]) := by
  refine ⟨by rfl, ?_⟩
  exact (C1_theorem regList false "1" none listNT.fields "item"
    { multiple := true, required := false, types := [⟨"number", true⟩] }
    listTree1.children [("item", .many [.node "1" "number" ⟨0,0⟩ ⟨0,1⟩ [] none])] []
    (by decide) rfl rfl (by rfl)).2 _ rfl

/-- Counterexample for C7: `foo` declares the required field `op` whose
alternatives are all anonymous; converting a childless `foo` node leaves
`op` unset, yet construction succeeds and conversion returns normally —
the claim requires the constructor to fail. -/
theorem C7_counterexample :
    (dictGet opNT.fields "op" = some { required := true, types := [⟨"+", false⟩] }) ∧
    fromTree regOp false none opTree =
      .ok (.node "x" "foo" ⟨0,0⟩ ⟨0,1⟩ [] (some [])) :=
  ⟨by rfl, by rfl⟩

/-- Witness for C7: the amended theorem applied to a concrete unpopulated
optional multiple field (defaulted to the empty sequence) and a concrete
missing required named field (constructor failure). -/
theorem C7_witness :
    (dictGet (applyDefaults listNT.fields []) "item" = some (FieldValue.many [])) ∧
    (constructNode sumNT "1+2" "sum" ⟨0,0⟩ ⟨0,3⟩ [] [] =
      .error (.constructorError "sum")) := by
  constructor
  · exact C7_theorem.1 listNT.fields [] "item"
      { multiple := true, required := false, types := [⟨"number", true⟩] }
      (by decide) rfl rfl
  · exact C7_theorem.2 sumNT "1+2" "sum" ⟨0,0⟩ ⟨0,3⟩ [] [] "left"
      { required := true, types := [⟨"number", true⟩] } (by decide) rfl (by decide) rfl

theorem conv_mono_aux (reg : List (String × NodeType)) (ct : String)
    (f : Option String) : ∀ (k : Nat),
    (∀ (t : TSNode) (n : PyNode), sizeOf t < k →
      fromTreeCursor reg true ct f t = .ok n →
      fromTreeCursor reg false ct f t = .ok n) ∧
    (∀ (ntflds : List (String × NodeArgsType)) (cs : List TSNode)
       (flds : List (String × FieldValue)) (kids : List PyNode)
       (res : List (String × FieldValue) × List PyNode), sizeOf cs < k →
      processChildren reg true ct f ntflds cs flds kids = .ok res →
      processChildren reg false ct f ntflds cs flds kids = .ok res) := by
  intro k
  induction k with
  | zero => exact ⟨fun t n h => absurd h (by omega), fun a b c d e h => absurd h (by omega)⟩
  | succ k ih =>
    constructor
    · intro t n hsz h
      obtain ⟨ty, isn, tx, sp, ep, fn, cs⟩ := t
      have hcs : sizeOf cs < k := by
        have : sizeOf (TSNode.mk ty isn tx sp ep fn cs) = 1 + sizeOf ty + sizeOf isn
            + sizeOf tx + sizeOf sp + sizeOf ep + sizeOf fn + sizeOf cs := by simp
        omega
      simp only [fromTreeCursor] at h ⊢
      cases isn with
      | false => exact absurd h (by simp)
      | true =>
        rw [if_pos rfl] at h ⊢
        cases hreg : dictGet reg ty with
        | none => rw [hreg] at h; exact absurd h (by simp)
        | some nt =>
          rw [hreg] at h
          dsimp only at h ⊢
          cases hpc : processChildren reg true ct f nt.fields cs [] [] with
          | error e => rw [hpc] at h; exact absurd h (by simp)
          | ok r =>
            obtain ⟨flds0, kids⟩ := r
            rw [hpc] at h
            dsimp only at h
            rw [ih.2 nt.fields cs [] [] (flds0, kids) (by omega) hpc]
            dsimp only
            simp only [Bool.false_and, Bool.false_eq_true, if_false]
            cases hty : (ty == "ERROR") with
            | true =>
              rw [hty] at h
              simp only [Bool.and_true, if_pos rfl] at h
              exact absurd h (by simp)
            | false =>
              rw [hty] at h
              simp only [Bool.and_false, Bool.false_eq_true, if_false] at h
              exact h
    · intro ntflds cs flds kids res hsz h
      cases cs with
      | nil => exact h
      | cons c rest =>
        have hszc : sizeOf c < k ∧ sizeOf rest < k := by
          have : sizeOf (c :: rest) = 1 + sizeOf c + sizeOf rest := by simp
          omega
        simp only [processChildren] at h ⊢
        by_cases hn : c.is_named = true
        · rw [if_pos hn] at h ⊢
          cases hconv : fromTreeCursor reg true ct f c with
          | error e => rw [hconv] at h; exact absurd h (by simp)
          | ok conv =>
            rw [hconv] at h
            rw [ih.1 c conv hszc.1 hconv]
            dsimp only at h ⊢
            cases hcf : c.field_name with
            | none =>
              rw [hcf] at h
              dsimp only at h ⊢
              exact ih.2 ntflds rest flds (kids ++ [conv]) res hszc.2 h
            | some fn2 =>
              rw [hcf] at h
              dsimp only at h ⊢
              cases hfty2 : dictGet ntflds fn2 with
              | none => rw [hfty2] at h; exact absurd h (by simp)
              | some fty2 =>
                rw [hfty2] at h
                dsimp only at h ⊢
                cases hm2 : fty2.multiple with
                | true =>
                  rw [hm2] at h
                  rw [if_pos rfl] at h ⊢
                  cases hex : dictGet flds fn2 with
                  | none =>
                    rw [hex] at h
                    dsimp only at h ⊢
                    exact ih.2 ntflds rest _ kids res hszc.2 h
                  | some fv =>
                    rw [hex] at h
                    dsimp only at h ⊢
                    cases fv with
                    | null => exact ih.2 ntflds rest _ kids res hszc.2 h
                    | one x => exact ih.2 ntflds rest _ kids res hszc.2 h
                    | many xs => exact ih.2 ntflds rest _ kids res hszc.2 h
                | false =>
                  rw [hm2] at h
                  rw [if_neg (by simp)] at h ⊢
                  exact ih.2 ntflds rest _ kids res hszc.2 h
        · rw [if_neg hn] at h ⊢
          exact ih.2 ntflds rest flds kids res hszc.2 h

theorem fromTreeCursor_mono (reg : List (String × NodeType)) (ct : String)
    (f : Option String) (t : TSNode) (n : PyNode)
    (h : fromTreeCursor reg true ct f t = .ok n) :
    fromTreeCursor reg false ct f t = .ok n :=
  (conv_mono_aux reg ct f (sizeOf t + 1)).1 t n (by omega) h

theorem processChildren_mono (reg : List (String × NodeType)) (ct : String)
    (f : Option String) (ntflds : List (String × NodeArgsType))
    (cs : List TSNode) (flds : List (String × FieldValue)) (kids : List PyNode)
    (res : List (String × FieldValue) × List PyNode)
    (h : processChildren reg true ct f ntflds cs flds kids = .ok res) :
    processChildren reg false ct f ntflds cs flds kids = .ok res :=
  (conv_mono_aux reg ct f (sizeOf cs + 1)).2 ntflds cs flds kids res (by omega) h

theorem constructNode_error_not_perr (nt : NodeType) (tx ty : String) (sp ep : Point)
    (flds : List (String × FieldValue)) (kids : List PyNode) (e : ConvErr)
    (h : constructNode nt tx ty sp ep flds kids = .error e) :
    e.isParseErr = false := by
  unfold constructNode at h
  split at h
  · split at h
    · exact absurd h (by simp)
    · obtain rfl : ConvErr.constructorError ty = e := Except.error.inj h
      rfl
  · split at h
    · exact absurd h (by simp)
    · obtain rfl : ConvErr.constructorError ty = e := Except.error.inj h
      rfl

theorem conv_no_perr_aux (reg : List (String × NodeType)) (ct : String)
    (f : Option String) : ∀ (k : Nat),
    (∀ (t : TSNode) (e : ConvErr), sizeOf t < k →
      fromTreeCursor reg false ct f t = .error e → e.isParseErr = false) ∧
    (∀ (ntflds : List (String × NodeArgsType)) (cs : List TSNode)
       (flds : List (String × FieldValue)) (kids : List PyNode) (e : ConvErr),
      sizeOf cs < k →
      processChildren reg false ct f ntflds cs flds kids = .error e →
      e.isParseErr = false) := by
  intro k
  induction k with
  | zero => exact ⟨fun t e h => absurd h (by omega), fun a b c d e h => absurd h (by omega)⟩
  | succ k ih =>
    constructor
    · intro t e hsz h
      obtain ⟨ty, isn, tx, sp, ep, fn, cs⟩ := t
      have hcs : sizeOf cs < k := by
        have : sizeOf (TSNode.mk ty isn tx sp ep fn cs) = 1 + sizeOf ty + sizeOf isn
            + sizeOf tx + sizeOf sp + sizeOf ep + sizeOf fn + sizeOf cs := by simp
        omega
      simp only [fromTreeCursor] at h
      cases isn with
      | false =>
        rw [if_neg (by simp)] at h
        obtain rfl : ConvErr.typeError ty = e := Except.error.inj h
        rfl
      | true =>
        rw [if_pos rfl] at h
        cases hreg : dictGet reg ty with
        | none =>
          rw [hreg] at h
          obtain rfl : ConvErr.nodeTypeError ty = e := Except.error.inj h
          rfl
        | some nt =>
          rw [hreg] at h
          dsimp only at h
          cases hpc : processChildren reg false ct f nt.fields cs [] [] with
          | error e2 =>
            rw [hpc] at h
            obtain rfl : e = e2 := (Except.error.inj h).symm
            exact ih.2 nt.fields cs [] [] e (by omega) hpc
          | ok r =>
            obtain ⟨flds0, kids⟩ := r
            rw [hpc] at h
            dsimp only at h
            simp only [Bool.false_and, Bool.false_eq_true, if_false] at h
            exact constructNode_error_not_perr _ _ _ _ _ _ _ _ h
    · intro ntflds cs flds kids e hsz h
      cases cs with
      | nil => exact absurd h (by simp [processChildren])
      | cons c rest =>
        have hszc : sizeOf c < k ∧ sizeOf rest < k := by
          have : sizeOf (c :: rest) = 1 + sizeOf c + sizeOf rest := by simp
          omega
        simp only [processChildren] at h
        by_cases hn : c.is_named = true
        · rw [if_pos hn] at h
          cases hconv : fromTreeCursor reg false ct f c with
          | error e2 =>
            rw [hconv] at h
            obtain rfl : e = e2 := (Except.error.inj h).symm
            exact ih.1 c e hszc.1 hconv
          | ok conv =>
            rw [hconv] at h
            dsimp only at h
            cases hcf : c.field_name with
            | none =>
              rw [hcf] at h
              dsimp only at h
              exact ih.2 ntflds rest flds (kids ++ [conv]) e hszc.2 h
            | some fn2 =>
              rw [hcf] at h
              dsimp only at h
              cases hfty2 : dictGet ntflds fn2 with
              | none =>
                rw [hfty2] at h
                obtain rfl : ConvErr.keyError fn2 = e := Except.error.inj h
                rfl
              | some fty2 =>
                rw [hfty2] at h
                dsimp only at h
                cases hm2 : fty2.multiple with
                | true =>
                  rw [hm2, if_pos rfl] at h
                  cases hex : dictGet flds fn2 with
                  | none =>
                    rw [hex] at h
                    dsimp only at h
                    exact ih.2 ntflds rest _ kids e hszc.2 h
                  | some fv =>
                    rw [hex] at h
                    dsimp only at h
                    cases fv with
                    | null => exact ih.2 ntflds rest _ kids e hszc.2 h
                    | one x => exact ih.2 ntflds rest _ kids e hszc.2 h
                    | many xs => exact ih.2 ntflds rest _ kids e hszc.2 h
                | false =>
                  rw [hm2, if_neg (by simp)] at h
                  exact ih.2 ntflds rest _ kids e hszc.2 h
        · rw [if_neg hn] at h
          exact ih.2 ntflds rest flds kids e hszc.2 h

theorem errReachable_of_child (c : TSNode) (cs : List TSNode) (hc : c ∈ cs)
    (h : errReachable c = true) :
    (cs.attach.any fun x => errReachable x.1) = true := by
  rw [List.any_eq_true]
  exact ⟨⟨c, hc⟩, List.mem_attach _ _, h⟩

theorem conv_perr_reach_aux (reg : List (String × NodeType)) (ct : String)
    (f : Option String) : ∀ (k : Nat),
    (∀ (t : TSNode) (e : ConvErr), sizeOf t < k →
      fromTreeCursor reg true ct f t = .error e → e.isParseErr = true →
      errReachable t = true) ∧
    (∀ (ntflds : List (String × NodeArgsType)) (cs : List TSNode)
       (flds : List (String × FieldValue)) (kids : List PyNode) (e : ConvErr),
      sizeOf cs < k →
      processChildren reg true ct f ntflds cs flds kids = .error e →
      e.isParseErr = true → ∃ c ∈ cs, errReachable c = true) := by
  intro k
  induction k with
  | zero => exact ⟨fun t e h => absurd h (by omega), fun a b c d e h => absurd h (by omega)⟩
  | succ k ih =>
    constructor
    · intro t e hsz h hpe
      obtain ⟨ty, isn, tx, sp, ep, fn, cs⟩ := t
      have hcs : sizeOf cs < k := by
        have : sizeOf (TSNode.mk ty isn tx sp ep fn cs) = 1 + sizeOf ty + sizeOf isn
            + sizeOf tx + sizeOf sp + sizeOf ep + sizeOf fn + sizeOf cs := by simp
        omega
      simp only [fromTreeCursor] at h
      cases isn with
      | false =>
        rw [if_neg (by simp)] at h
        obtain rfl : e = ConvErr.typeError ty := (Except.error.inj h).symm
        exact absurd hpe (by simp [ConvErr.isParseErr])
      | true =>
        rw [if_pos rfl] at h
        cases hreg : dictGet reg ty with
        | none =>
          rw [hreg] at h
          obtain rfl : e = ConvErr.nodeTypeError ty := (Except.error.inj h).symm
          exact absurd hpe (by simp [ConvErr.isParseErr])
        | some nt =>
          rw [hreg] at h
          dsimp only at h
          cases hpc : processChildren reg true ct f nt.fields cs [] [] with
          | error e2 =>
            rw [hpc] at h
            obtain rfl : e = e2 := (Except.error.inj h).symm
            obtain ⟨c, hc, hcr⟩ := ih.2 nt.fields cs [] [] e (by omega) hpc hpe
            simp only [errReachable]
            rw [errReachable_of_child c cs hc hcr]
            simp
          | ok r =>
            obtain ⟨flds0, kids⟩ := r
            rw [hpc] at h
            dsimp only at h
            cases hty : (ty == "ERROR") with
            | true =>
              simp only [errReachable, hty]
              simp
            | false =>
              rw [hty] at h
              simp only [Bool.and_false, Bool.false_eq_true, if_false] at h
              have := constructNode_error_not_perr _ _ _ _ _ _ _ _ h
              rw [hpe] at this
              exact absurd this (by simp)
    · intro ntflds cs flds kids e hsz h hpe
      cases cs with
      | nil => exact absurd h (by simp [processChildren])
      | cons c rest =>
        have hszc : sizeOf c < k ∧ sizeOf rest < k := by
          have : sizeOf (c :: rest) = 1 + sizeOf c + sizeOf rest := by simp
          omega
        simp only [processChildren] at h
        by_cases hn : c.is_named = true
        · rw [if_pos hn] at h
          cases hconv : fromTreeCursor reg true ct f c with
          | error e2 =>
            rw [hconv] at h
            obtain rfl : e = e2 := (Except.error.inj h).symm
            exact ⟨c, List.mem_cons_self _ _, ih.1 c e hszc.1 hconv hpe⟩
          | ok conv =>
            rw [hconv] at h
            dsimp only at h
            cases hcf : c.field_name with
            | none =>
              rw [hcf] at h
              dsimp only at h
              obtain ⟨c2, hc2, hcr⟩ := ih.2 ntflds rest flds (kids ++ [conv]) e hszc.2 h hpe
              exact ⟨c2, List.mem_cons_of_mem _ hc2, hcr⟩
            | some fn2 =>
              rw [hcf] at h
              dsimp only at h
              cases hfty2 : dictGet ntflds fn2 with
              | none =>
                rw [hfty2] at h
                obtain rfl : e = ConvErr.keyError fn2 := (Except.error.inj h).symm
                exact absurd hpe (by simp [ConvErr.isParseErr])
              | some fty2 =>
                rw [hfty2] at h
                dsimp only at h
                cases hm2 : fty2.multiple with
                | true =>
                  rw [hm2, if_pos rfl] at h
                  cases hex : dictGet flds fn2 with
                  | none =>
                    rw [hex] at h
                    dsimp only at h
                    obtain ⟨c2, hc2, hcr⟩ := ih.2 ntflds rest _ kids e hszc.2 h hpe
                    exact ⟨c2, List.mem_cons_of_mem _ hc2, hcr⟩
                  | some fv =>
                    rw [hex] at h
                    dsimp only at h
                    cases fv with
                    | null =>
                      obtain ⟨c2, hc2, hcr⟩ := ih.2 ntflds rest _ kids e hszc.2 h hpe
                      exact ⟨c2, List.mem_cons_of_mem _ hc2, hcr⟩
                    | one x =>
                      obtain ⟨c2, hc2, hcr⟩ := ih.2 ntflds rest _ kids e hszc.2 h hpe
                      exact ⟨c2, List.mem_cons_of_mem _ hc2, hcr⟩
                    | many xs =>
                      obtain ⟨c2, hc2, hcr⟩ := ih.2 ntflds rest _ kids e hszc.2 h hpe
                      exact ⟨c2, List.mem_cons_of_mem _ hc2, hcr⟩
                | false =>
                  rw [hm2, if_neg (by simp)] at h
                  obtain ⟨c2, hc2, hcr⟩ := ih.2 ntflds rest _ kids e hszc.2 h hpe
                  exact ⟨c2, List.mem_cons_of_mem _ hc2, hcr⟩
        · rw [if_neg hn] at h
          obtain ⟨c2, hc2, hcr⟩ := ih.2 ntflds rest flds kids e hszc.2 h hpe
          exact ⟨c2, List.mem_cons_of_mem _ hc2, hcr⟩

theorem dictGet_build_ERROR (nts : List NodeType) (extra : List String) :
    dictGet (buildNodeTypesByType nts extra) "ERROR" = some (errorNodeType nts) :=
  dictGet_dictSet_self _ _ _

theorem errorNodeType_has_content (nts : List NodeType) (hnts : nts ≠ []) :
    (errorNodeType nts).has_content = true := by
  cases nts with
  | nil => exact absurd rfl hnts
  | cons a l => rfl

theorem convert_error_node_false (nts : List NodeType) (extra : List String)
    (ct : String) (f : Option String) (tx : String) (sp ep : Point)
    (fn : Option String) (cs : List TSNode) (kids : List PyNode)
    (hnts : nts ≠ [])
    (hpc : processChildren (buildNodeTypesByType nts extra) false ct f
      (errorNodeType nts).fields cs [] [] = .ok ([], kids)) :
    fromTreeCursor (buildNodeTypesByType nts extra) false ct f
        (.mk "ERROR" true tx sp ep fn cs) =
      .ok (.perror tx "ERROR" sp ep kids none none) := by
  simp only [fromTreeCursor]
  rw [if_pos trivial, dictGet_build_ERROR]
  dsimp only
  rw [hpc]
  dsimp only
  simp only [Bool.false_and, Bool.false_eq_true, if_false]
  show constructNode (errorNodeType nts) tx "ERROR" sp ep
    (applyDefaults (errorNodeType nts).fields []) kids = _
  unfold constructNode
  rw [if_pos (show ("ERROR" == "ERROR") = true by rfl)]
  rw [if_pos (by
    rw [show applyDefaults (errorNodeType nts).fields [] = [] from rfl]
    simp [errorNodeType_has_content nts hnts])]

theorem convert_error_node (nts : List NodeType) (extra : List String)
    (ct : String) (f : Option String) (tx : String) (sp ep : Point)
    (fn : Option String) (cs : List TSNode) (kids : List PyNode)
    (hnts : nts ≠ [])
    (hpc : processChildren (buildNodeTypesByType nts extra) true ct f
      (errorNodeType nts).fields cs [] [] = .ok ([], kids)) :
    fromTreeCursor (buildNodeTypesByType nts extra) true ct f
        (.mk "ERROR" true tx sp ep fn cs) =
      .error (.parseError tx "ERROR" sp ep kids (some ct) f) ∧
    fromTreeCursor (buildNodeTypesByType nts extra) false ct f
        (.mk "ERROR" true tx sp ep fn cs) =
      .ok (.perror tx "ERROR" sp ep kids none none) := by
  constructor
  · simp only [fromTreeCursor]
    rw [if_pos trivial, dictGet_build_ERROR]
    dsimp only
    rw [hpc]
    dsimp only
    rw [if_pos (by simp)]
  · exact convert_error_node_false nts extra ct f tx sp ep fn cs kids hnts
      (processChildren_mono _ _ _ _ _ _ _ _ hpc)

/-- Claim C4: conversion raises a `ParseError` only when `raiseOnError` is
set (with it unset no conversion failure is a `ParseError`), and under
`raiseOnError` a raised `ParseError` implies a reachable named `ERROR`
node; conversely, converting a named `ERROR` node whose children convert
cleanly raises a `ParseError` when `raiseOnError` is set, and with it
unset returns an ordinary `ERROR`-typed node carrying the same positional
children the raised error value would have carried. -/
theorem C4_theorem :
    (∀ (reg : List (String × NodeType)) (ct : String) (f : Option String)
       (t : TSNode) (e : ConvErr),
      fromTreeCursor reg false ct f t = .error e → e.isParseErr = false) ∧
    (∀ (reg : List (String × NodeType)) (ct : String) (f : Option String)
       (t : TSNode) (e : ConvErr),
      fromTreeCursor reg true ct f t = .error e → e.isParseErr = true →
      errReachable t = true) ∧
    (∀ (nts : List NodeType) (extra : List String) (ct : String) (f : Option String)
       (tx : String) (sp ep : Point) (fn : Option String) (cs : List TSNode)
       (kids : List PyNode), nts ≠ [] →
      processChildren (buildNodeTypesByType nts extra) true ct f
        (errorNodeType nts).fields cs [] [] = .ok ([], kids) →
      fromTreeCursor (buildNodeTypesByType nts extra) true ct f
          (.mk "ERROR" true tx sp ep fn cs) =
        .error (.parseError tx "ERROR" sp ep kids (some ct) f) ∧
      fromTreeCursor (buildNodeTypesByType nts extra) false ct f
          (.mk "ERROR" true tx sp ep fn cs) =
        .ok (.perror tx "ERROR" sp ep kids none none)) :=
  ⟨fun reg ct f t e h => (conv_no_perr_aux reg ct f (sizeOf t + 1)).1 t e (by omega) h,
   fun reg ct f t e h hpe => (conv_perr_reach_aux reg ct f (sizeOf t + 1)).1 t e (by omega) h hpe,
   fun nts extra ct f tx sp ep fn cs kids hnts hpc =>
     convert_error_node nts extra ct f tx sp ep fn cs kids hnts hpc⟩

/-- Witness for C4: the `ERROR` scenario over the arithmetic registry —
raising conversion and non-raising conversion of the same input, with the
same positional children. -/
theorem C4_witness :
    ([numberNT, sumNT] ≠ ([] : List NodeType)) ∧
    (processChildren regArith true "1!" none (errorNodeType [numberNT, sumNT]).fields
        errTree.children [] [] =
      .ok ([], [.node "1" "number" ⟨0,0⟩ ⟨0,1⟩ [] none])) ∧
    (fromTreeCursor regArith true "1!" none errTree =
      .error (.parseError "1!" "ERROR" ⟨0,0⟩ ⟨0,2⟩
        [.node "1" "number" ⟨0,0⟩ ⟨0,1⟩ [] none] (some "1!") none)) ∧
    (fromTreeCursor regArith false "1!" none errTree =
      .ok (.perror "1!" "ERROR" ⟨0,0⟩ ⟨0,2⟩
        [.node "1" "number" ⟨0,0⟩ ⟨0,1⟩ [] none] none none)) := by
  refine ⟨by simp, by rfl, ?_⟩
  exact C4_theorem.2.2 [numberNT, sumNT] [] "1!" none "1!" ⟨0,0⟩ ⟨0,2⟩ none
    errTree.children [.node "1" "number" ⟨0,0⟩ ⟨0,1⟩ [] none] (by simp) (by rfl)

/-- Claim C10: with `raiseOnError` unset, a named `ERROR` node converts to
an instance of the `ParseError` class (the constructor the registry binds
to the `ERROR` type name) whose `contents` and `filename` attributes are
both `None` even though a filename was supplied to the conversion call;
on the raising path the raised value carries the full source text and the
supplied filename. -/
theorem C10_theorem (nts : List NodeType) (extra : List String) (ct : String)
    (fname tx : String) (sp ep : Point) (fn : Option String) (cs : List TSNode)
    (kids : List PyNode) (hnts : nts ≠ [])
    (hpc : processChildren (buildNodeTypesByType nts extra) true ct (some fname)
      (errorNodeType nts).fields cs [] [] = .ok ([], kids)) :
    fromTreeCursor (buildNodeTypesByType nts extra) false ct (some fname)
        (.mk "ERROR" true tx sp ep fn cs) =
      .ok (.perror tx "ERROR" sp ep kids none none) ∧
    fromTreeCursor (buildNodeTypesByType nts extra) true ct (some fname)
        (.mk "ERROR" true tx sp ep fn cs) =
      .error (.parseError tx "ERROR" sp ep kids (some ct) (some fname)) :=
  ⟨(convert_error_node nts extra ct (some fname) tx sp ep fn cs kids hnts hpc).2,
   (convert_error_node nts extra ct (some fname) tx sp ep fn cs kids hnts hpc).1⟩

/-- Witness for C10: the `ERROR` scenario converted with filename
`test.py` — the returned `ParseError` value has `contents = None` and
`filename = None`, while the raised one carries both. -/
theorem C10_witness :
    (fromTreeCursor regArith false "1!" (some "test.py") errTree =
      .ok (.perror "1!" "ERROR" ⟨0,0⟩ ⟨0,2⟩
        [.node "1" "number" ⟨0,0⟩ ⟨0,1⟩ [] none] none none)) ∧
    (fromTreeCursor regArith true "1!" (some "test.py") errTree =
      .error (.parseError "1!" "ERROR" ⟨0,0⟩ ⟨0,2⟩
        [.node "1" "number" ⟨0,0⟩ ⟨0,1⟩ [] none] (some "1!") (some "test.py"))) :=
  C10_theorem [numberNT, sumNT] [] "1!" "test.py" "1!" ⟨0,0⟩ ⟨0,2⟩ none
    errTree.children [.node "1" "number" ⟨0,0⟩ ⟨0,1⟩ [] none] (by simp) (by rfl)

theorem dictGetSized_val {α : Type} [SizeOf α] (l : List (String × α)) (k : String) :
    (dictGetSized l k).map Subtype.val = dictGet l k := by
  induction l with
  | nil => rfl
  | cons p rest ih =>
    obtain ⟨k1, v1⟩ := p
    simp only [dictGetSized, dictGet]
    by_cases h : k1 = k
    · rw [if_pos (by simp [h]), if_pos (by simp [h])]
      rfl
    · rw [if_neg (by simp [h]), if_neg (by simp [h])]
      rw [← ih]
      cases dictGetSized rest k with
      | none => rfl
      | some v => rfl

theorem listEquiv_length_ne (reg : List (String × NodeType))
    (l1 l2 : List PyNode) (h : l1.length ≠ l2.length) :
    listEquiv reg l1 l2 = false := by
  induction l1 generalizing l2 with
  | nil =>
    cases l2 with
    | nil => exact absurd rfl h
    | cons b bs =>
      rw [listEquiv]
      all_goals simp
  | cons a xs ih =>
    cases l2 with
    | nil =>
      rw [listEquiv]
      all_goals simp
    | cons b bs =>
      rw [listEquiv, ih bs (by simpa using h)]
      simp

theorem fieldsEquiv_presence_ne (reg : List (String × NodeType))
    (ntflds : List (String × NodeArgsType))
    (flds1 : List (String × FieldValue)) (n2 : PyNode)
    (fn : String) (fty : NodeArgsType) (hmem : (fn, fty) ∈ ntflds)
    (hne : (dictGet flds1 fn).isSome ≠ (n2.getAttr fn).isSome) :
    fieldsEquiv reg ntflds flds1 n2 = false := by
  induction ntflds with
  | nil => exact absurd hmem (by simp)
  | cons p rest ih =>
    obtain ⟨k, a⟩ := p
    rw [fieldsEquiv]
    rcases List.mem_cons.mp hmem with heq | hmem2
    · obtain ⟨rfl, rfl⟩ : fn = k ∧ fty = a := ⟨(Prod.mk.injEq .. ▸ heq).1, (Prod.mk.injEq .. ▸ heq).2⟩
      cases h1 : dictGetSized flds1 fn with
      | none =>
        have : (dictGet flds1 fn).isSome = false := by
          rw [← dictGetSized_val, h1]
          rfl
        rw [this] at hne
        cases h2 : n2.getAttr fn with
        | none => rw [h2] at hne; simp at hne
        | some v2 => simp
      | some v1 =>
        have : (dictGet flds1 fn).isSome = true := by
          rw [← dictGetSized_val, h1]
          rfl
        rw [this] at hne
        cases h2 : n2.getAttr fn with
        | none => simp
        | some v2 => rw [h2] at hne; simp at hne
    · rw [ih hmem2]
      simp

theorem isEquivalent_node_unfold (reg : List (String × NodeType)) (tx ty : String)
    (sp ep : Point) (flds1 : List (String × FieldValue)) (ch1 : Option (List PyNode))
    (b : PyNode) (nt : NodeType)
    (hty : (ty == "ERROR") = false) (hreg : dictGet reg ty = some nt)
    (habs : nt.is_abstract = false) :
    isEquivalent reg (.node tx ty sp ep flds1 ch1) b =
      if nt.has_content = true then
        (match ch1 with
         | none => true
         | some c1 =>
           match b.childrenAttr with
           | none => false
           | some c2 => argsEquiv reg nt.children (.many c1) (.many c2))
        && fieldsEquiv reg nt.fields flds1 b
      else (tx == b.textOf) := by
  simp only [isEquivalent]
  rw [hty]
  simp only [Bool.false_eq_true, if_false]
  rw [hreg]
  dsimp only
  rw [habs]
  simp only [Bool.false_eq_true, if_false]
  rfl

theorem withPositions_childrenAttr (b : PyNode) (p1 p2 : Point) :
    (b.withPositions p1 p2).childrenAttr = b.childrenAttr := by
  cases b <;> rfl

theorem withPositions_getAttr (b : PyNode) (p1 p2 : Point) (fn : String) :
    (b.withPositions p1 p2).getAttr fn = b.getAttr fn := by
  cases b <;> rfl

theorem withPositions_textOf (b : PyNode) (p1 p2 : Point) :
    (b.withPositions p1 p2).textOf = b.textOf := by
  cases b <;> rfl

theorem fieldsEquiv_congr_right (reg : List (String × NodeType))
    (ntflds : List (String × NodeArgsType)) (flds1 : List (String × FieldValue))
    (n2a n2b : PyNode) (h : ∀ fn, n2a.getAttr fn = n2b.getAttr fn) :
    fieldsEquiv reg ntflds flds1 n2a = fieldsEquiv reg ntflds flds1 n2b := by
  induction ntflds with
  | nil => rw [fieldsEquiv, fieldsEquiv]
  | cons p rest ih =>
    obtain ⟨fn, fty⟩ := p
    rw [fieldsEquiv, fieldsEquiv, ih, h fn]

/-- Claim C6 (amended): equivalence is driven by the first node's schema
entry. If the entry has no content, two nodes are equivalent iff their
decoded text is identical. If the entry has content, the children
sequences are compared positionally and recursively — with a length
mismatch implying inequivalence — whenever the children contract has at
least one named alternative (an entry with a non-named children contract
skips the contents of the children sequences); every declared field with
slot present on one node but absent on the other implies inequivalence;
and the position and raw text of the composite node itself (and the
positions of the other node) never influence the result. -/
theorem C6_theorem (reg : List (String × NodeType)) (tx ty : String) (sp ep : Point)
    (flds1 : List (String × FieldValue)) (ch1 : Option (List PyNode))
    (b : PyNode) (nt : NodeType)
    (hty : (ty == "ERROR") = false) (hreg : dictGet reg ty = some nt)
    (habs : nt.is_abstract = false) :
    (nt.has_content = false →
      isEquivalent reg (.node tx ty sp ep flds1 ch1) b = (tx == b.textOf)) ∧
    (nt.has_content = true → nt.children.namedAny = true →
      ∀ l1 l2, ch1 = some l1 → b.childrenAttr = some l2 → l1.length ≠ l2.length →
      isEquivalent reg (.node tx ty sp ep flds1 ch1) b = false) ∧
    (nt.has_content = true → ∀ fn fty, (fn, fty) ∈ nt.fields →
      (dictGet flds1 fn).isSome ≠ (b.getAttr fn).isSome →
      isEquivalent reg (.node tx ty sp ep flds1 ch1) b = false) ∧
    (nt.has_content = true → ∀ tx2 p1 p2,
      isEquivalent reg (.node tx2 ty p1 p2 flds1 ch1) b =
        isEquivalent reg (.node tx ty sp ep flds1 ch1) b) ∧
    (∀ (a : PyNode) (p1 p2 : Point),
      isEquivalent reg a (b.withPositions p1 p2) = isEquivalent reg a b) := by
  refine ⟨?_, ?_, ?_, ?_, ?_⟩
  · intro hnc
    rw [isEquivalent_node_unfold reg tx ty sp ep flds1 ch1 b nt hty hreg habs]
    rw [hnc]
    simp
  · intro hc hnamed l1 l2 hl1 hl2 hlen
    rw [isEquivalent_node_unfold reg tx ty sp ep flds1 ch1 b nt hty hreg habs]
    rw [hc, if_pos rfl, hl1, hl2]
    dsimp only
    rw [argsEquiv]
    rw [if_pos hnamed]
    rw [listEquiv_length_ne reg l1 l2 hlen]
    simp
  · intro hc fn fty hmem hne
    rw [isEquivalent_node_unfold reg tx ty sp ep flds1 ch1 b nt hty hreg habs]
    rw [hc, if_pos rfl]
    rw [fieldsEquiv_presence_ne reg nt.fields flds1 b fn fty hmem hne]
    simp
  · intro hc tx2 p1 p2
    rw [isEquivalent_node_unfold reg tx2 ty p1 p2 flds1 ch1 b nt hty hreg habs]
    rw [isEquivalent_node_unfold reg tx ty sp ep flds1 ch1 b nt hty hreg habs]
    rw [hc, if_pos rfl, if_pos rfl]
  · intro a p1 p2
    cases a with
    | perror t1 t2 p3 p4 cs c1 f1 => simp only [isEquivalent]
    | node atx aty asp aep aflds ach =>
      simp only [isEquivalent]
      cases haty : (aty == "ERROR") with
      | true => rfl
      | false =>
        simp only [Bool.false_eq_true, if_false]
        cases hareg : dictGet reg aty with
        | none => rfl
        | some ant =>
          dsimp only
          cases ahabs : ant.is_abstract with
          | true => simp
          | false =>
            simp only [Bool.false_eq_true, if_false]
            cases ahc : ant.has_content with
            | true =>
              simp only [if_pos rfl]
              rw [withPositions_childrenAttr,
                fieldsEquiv_congr_right reg ant.fields aflds _ b
                  (fun fn => withPositions_getAttr b p1 p2 fn),
                withPositions_textOf]
            | false =>
              simp only [Bool.false_eq_true, if_false]
              rw [withPositions_textOf]

/-- Counterexample for C6: `wrap` is content-bearing through its fields
only, so its children contract has no named alternative; two converted
`wrap` nodes whose positional-children sequences have lengths 1 and 0 are
nevertheless equivalent — a children length mismatch does not imply
inequivalence for such an entry, contrary to the claim. -/
theorem C6_counterexample :
    fromTree regWrap false none wrapTree1 = .ok wrapNode1 ∧
    fromTree regWrap false none wrapTree2 = .ok wrapNode2 ∧
    (wrapNode1.childrenAttr.map List.length = some 1) ∧
    (wrapNode2.childrenAttr.map List.length = some 0) ∧
    isEquivalent regWrap wrapNode1 wrapNode2 = true := by
  refine ⟨by rfl, by rfl, by rfl, by rfl, ?_⟩
  simp [isEquivalent, argsEquiv, listEquiv, fieldsEquiv, dictGet, dictGetSized,
    buildNodeTypesByType, errorNodeType, dictSet, NodeType.is_abstract,
    NodeType.has_content, NodeArgsType.toBool, NodeArgsType.namedAny,
    PyNode.childrenAttr, PyNode.getAttr, PyNode.textOf, regWrap, wrapNode1,
    wrapNode2, wrapNT, numberNT, commentNodeC]

/-- Witness for C6: the amended theorem applied to a concrete leaf
comparison (text equality) and to a concrete named-children length
mismatch (inequivalence). -/
theorem C6_witness :
    (isEquivalent regCall (.node "x" "number" ⟨0,0⟩ ⟨0,1⟩ [] none) callNodeX =
      ("x" == callNodeX.textOf)) ∧
    (isEquivalent regCall (.node "y" "call" ⟨0,0⟩ ⟨0,1⟩ [] (some [leafNodeX]))
      callNodeX = false) := by
  constructor
  · exact (C6_theorem regCall "x" "number" ⟨0,0⟩ ⟨0,1⟩ [] none callNodeX numberNT
      (by rfl) (by rfl) (by rfl)).1 (by rfl)
  · exact (C6_theorem regCall "y" "call" ⟨0,0⟩ ⟨0,1⟩ [] (some [leafNodeX]) callNodeX
      callNT (by rfl) (by rfl) (by rfl)).2.1 (by rfl) (by rfl)
      [leafNodeX] [] rfl (by rfl) (by simp)

theorem strBeq_symm (a b : String) : (a == b) = (b == a) := by
  by_cases h : a = b
  · subst h; rfl
  · rw [beq_eq_false_iff_ne.mpr h, beq_eq_false_iff_ne.mpr (Ne.symm h)]

theorem isEquivalent_passive (reg : List (String × NodeType)) (n m : PyNode)
    (h : passive reg n = true) : isEquivalent reg n m = true := by
  cases n with
  | perror t1 t2 p1 p2 cs c f => simp only [isEquivalent]
  | node tx ty sp ep flds ch =>
    simp only [passive] at h
    simp only [isEquivalent]
    cases hty : (ty == "ERROR") with
    | true => rw [if_pos rfl]
    | false =>
      rw [hty] at h
      simp only [Bool.false_or] at h
      simp only [Bool.false_eq_true, if_false]
      cases hreg : dictGet reg ty with
      | none => rfl
      | some nt =>
        rw [hreg] at h
        dsimp only at h ⊢
        rw [h, if_pos rfl]

theorem not_passive_node (reg : List (String × NodeType)) (tx ty : String)
    (sp ep : Point) (flds : List (String × FieldValue)) (ch : Option (List PyNode))
    (h : passive reg (.node tx ty sp ep flds ch) = false) :
    (ty == "ERROR") = false ∧
      ∃ nt, dictGet reg ty = some nt ∧ nt.is_abstract = false := by
  simp only [passive] at h
  rw [Bool.or_eq_false_iff] at h
  refine ⟨h.1, ?_⟩
  have h2 := h.2
  cases hreg : dictGet reg ty with
  | none => rw [hreg] at h2; exact absurd h2 (by simp)
  | some nt => rw [hreg] at h2; exact ⟨nt, rfl, h2⟩

theorem sameShape_node_unfold (reg : List (String × NodeType))
    (tx1 ty1 : String) (sp1 ep1 : Point) (flds1 : List (String × FieldValue))
    (ch1 : Option (List PyNode))
    (tx2 ty2 : String) (sp2 ep2 : Point) (flds2 : List (String × FieldValue))
    (ch2 : Option (List PyNode))
    (hp1 : passive reg (.node tx1 ty1 sp1 ep1 flds1 ch1) = false)
    (hp2 : passive reg (.node tx2 ty2 sp2 ep2 flds2 ch2) = false) :
    sameShape reg (.node tx1 ty1 sp1 ep1 flds1 ch1) (.node tx2 ty2 sp2 ep2 flds2 ch2) =
      (ty1 == ty2 &&
        match dictGet reg ty1 with
        | none => true
        | some nt =>
          if nt.has_content = true then
            (match ch1, ch2 with
             | some l1, some l2 =>
               !nt.children.namedAny || l1.length != l2.length || listShape reg l1 l2
             | none, none => true
             | _, _ => false)
            && fieldsShape reg nt.fields flds1 flds2
          else true) := by
  simp only [sameShape]
  rw [hp1, hp2]
  simp only [Bool.false_or, Bool.false_eq_true, if_false]
  cases ch1 <;> cases ch2 <;> rfl

theorem equiv_symm_aux (reg : List (String × NodeType)) : ∀ k : Nat,
    (∀ n1 n2, sizeOf n1 < k → sameShape reg n1 n2 = true →
      isEquivalent reg n1 n2 = isEquivalent reg n2 n1) ∧
    (∀ l1 l2, sizeOf l1 < k → l1.length = l2.length → listShape reg l1 l2 = true →
      listEquiv reg l1 l2 = listEquiv reg l2 l1) ∧
    (∀ (ntflds : List (String × NodeArgsType)) (flds1 flds2 : List (String × FieldValue))
       (b1 b2 : PyNode),
      sizeOf flds1 < k →
      (∀ fn, b1.getAttr fn = dictGet flds1 fn) →
      (∀ fn, b2.getAttr fn = dictGet flds2 fn) →
      fieldsShape reg ntflds flds1 flds2 = true →
      fieldsEquiv reg ntflds flds1 b2 = fieldsEquiv reg ntflds flds2 b1) := by
  intro k
  induction k with
  | zero =>
    refine ⟨fun n1 n2 h => absurd h (by omega),
      fun l1 l2 h => absurd h (by omega),
      fun a b c d e h => absurd h (by omega)⟩
  | succ k ih =>
    refine ⟨?_, ?_, ?_⟩
    · intro n1 n2 hsz hsh
      cases n1 with
      | perror t1 t2 p1 p2 cs c f =>
        have hp1 : passive reg (PyNode.perror t1 t2 p1 p2 cs c f) = true := rfl
        cases n2 with
        | perror u1 u2 q1 q2 ds d g =>
          rw [isEquivalent_passive reg (PyNode.perror t1 t2 p1 p2 cs c f)
              (PyNode.perror u1 u2 q1 q2 ds d g) rfl,
            isEquivalent_passive reg (PyNode.perror u1 u2 q1 q2 ds d g)
              (PyNode.perror t1 t2 p1 p2 cs c f) rfl]
        | node tx2 ty2 sp2 ep2 flds2 ch2 =>
          simp only [sameShape] at hsh
          rw [hp1] at hsh
          simp at hsh
          rw [isEquivalent_passive reg _ _ hp1, isEquivalent_passive reg _ _ hsh]
      | node tx1 ty1 sp1 ep1 flds1 ch1 =>
        cases n2 with
        | perror u1 u2 q1 q2 ds d g =>
          have hp2 : passive reg (PyNode.perror u1 u2 q1 q2 ds d g) = true := rfl
          simp only [sameShape] at hsh
          rw [hp2] at hsh
          simp at hsh
          rw [isEquivalent_passive reg _ _ hsh, isEquivalent_passive reg _ _ hp2]
        | node tx2 ty2 sp2 ep2 flds2 ch2 =>
          by_cases hp1 : passive reg (PyNode.node tx1 ty1 sp1 ep1 flds1 ch1) = true
          · have hp2 : passive reg (PyNode.node tx2 ty2 sp2 ep2 flds2 ch2) = true := by
              simp only [sameShape] at hsh
              rw [hp1] at hsh
              simpa using hsh
            rw [isEquivalent_passive reg _ _ hp1, isEquivalent_passive reg _ _ hp2]
          · rw [Bool.not_eq_true] at hp1
            by_cases hp2 : passive reg (PyNode.node tx2 ty2 sp2 ep2 flds2 ch2) = true
            · simp only [sameShape] at hsh
              rw [hp1, hp2] at hsh
              simp at hsh
            · rw [Bool.not_eq_true] at hp2
              obtain ⟨hterr1, nt1, hreg1, habs1⟩ :=
                not_passive_node reg tx1 ty1 sp1 ep1 flds1 ch1 hp1
              rw [sameShape_node_unfold reg tx1 ty1 sp1 ep1 flds1 ch1
                tx2 ty2 sp2 ep2 flds2 ch2 hp1 hp2] at hsh
              rw [Bool.and_eq_true] at hsh
              obtain ⟨hty12, hsh2⟩ := hsh
              obtain rfl : ty1 = ty2 := eq_of_beq hty12
              rw [hreg1] at hsh2
              dsimp only at hsh2
              have hsf1 : sizeOf flds1 < sizeOf (PyNode.node tx1 ty1 sp1 ep1 flds1 ch1) := by
                simp_arith
              rw [isEquivalent_node_unfold reg tx1 ty1 sp1 ep1 flds1 ch1
                (.node tx2 ty1 sp2 ep2 flds2 ch2) nt1 hterr1 hreg1 habs1]
              rw [isEquivalent_node_unfold reg tx2 ty1 sp2 ep2 flds2 ch2
                (.node tx1 ty1 sp1 ep1 flds1 ch1) nt1 hterr1 hreg1 habs1]
              cases hc : nt1.has_content with
              | false =>
                simp only [Bool.false_eq_true, if_false]
                exact strBeq_symm tx1 tx2
              | true =>
                rw [if_pos rfl, if_pos rfl]
                rw [hc, if_pos rfl] at hsh2
                rw [Bool.and_eq_true] at hsh2
                obtain ⟨hchsh, hfsh⟩ := hsh2
                have hfields : fieldsEquiv reg nt1.fields flds1
                    (.node tx2 ty1 sp2 ep2 flds2 ch2) =
                    fieldsEquiv reg nt1.fields flds2
                    (.node tx1 ty1 sp1 ep1 flds1 ch1) :=
                  ih.2.2 nt1.fields flds1 flds2 _ _ (by omega)
                    (fun fn => rfl) (fun fn => rfl) hfsh
                cases hch1 : ch1 with
                | none =>
                  cases hch2 : ch2 with
                  | none =>
                    rw [hch1, hch2] at hfields
                    dsimp only [PyNode.childrenAttr]
                    rw [hfields]
                  | some l2 =>
                    rw [hch1, hch2] at hchsh
                    simp at hchsh
                | some l1 =>
                  cases hch2 : ch2 with
                  | none =>
                    rw [hch1, hch2] at hchsh
                    simp at hchsh
                  | some l2 =>
                    rw [hch1, hch2] at hchsh hfields
                    dsimp only [PyNode.childrenAttr]
                    have hsl1 : sizeOf l1 <
                        sizeOf (PyNode.node tx1 ty1 sp1 ep1 flds1 ch1) := by
                      rw [hch1]
                      simp_arith
                    have hargs : argsEquiv reg nt1.children (.many l1) (.many l2) =
                        argsEquiv reg nt1.children (.many l2) (.many l1) := by
                      simp only [argsEquiv]
                      cases hna : nt1.children.namedAny with
                      | false => simp
                      | true =>
                        simp only [if_pos rfl]
                        by_cases hlen : l1.length = l2.length
                        · rw [hna] at hchsh
                          simp only [Bool.not_true, Bool.false_or] at hchsh
                          rw [show (l1.length != l2.length) = false by
                            simp [hlen]] at hchsh
                          simp only [Bool.false_or] at hchsh
                          exact ih.2.1 l1 l2 (by omega) hlen hchsh
                        · rw [listEquiv_length_ne reg l1 l2 hlen,
                            listEquiv_length_ne reg l2 l1 (Ne.symm hlen)]
                    rw [hargs, hfields]
    · intro l1 l2 hsz hlen hsh
      cases l1 with
      | nil =>
        cases l2 with
        | nil => rfl
        | cons b ys => simp at hlen
      | cons a xs =>
        cases l2 with
        | nil => simp at hlen
        | cons b ys =>
          rw [listShape] at hsh
          rw [Bool.and_eq_true] at hsh
          rw [listEquiv, listEquiv]
          have hsa : sizeOf a < sizeOf (a :: xs) := by simp_arith
          have hsxs : sizeOf xs < sizeOf (a :: xs) := by simp_arith
          rw [ih.1 a b (by omega) hsh.1,
            ih.2.1 xs ys (by omega) (by simpa using hlen) hsh.2]
    · intro ntflds flds1 flds2 b1 b2 hsz hb1 hb2 hsh
      induction ntflds with
      | nil => rw [fieldsEquiv, fieldsEquiv]
      | cons p rest ihf =>
        obtain ⟨fn, fty⟩ := p
        rw [fieldsShape] at hsh
        rw [Bool.and_eq_true] at hsh
        obtain ⟨hhead, htail⟩ := hsh
        rw [fieldsEquiv, fieldsEquiv]
        rw [ihf htail]
        rw [hb1 fn, hb2 fn]
        cases hs1 : dictGetSized flds1 fn with
        | none =>
          have hd1 : dictGet flds1 fn = none := by
            rw [← dictGetSized_val, hs1]; rfl
          rw [hd1]
          cases hs2 : dictGetSized flds2 fn with
          | none =>
            have hd2 : dictGet flds2 fn = none := by
              rw [← dictGetSized_val, hs2]; rfl
            rw [hd2]
          | some v2 =>
            have hd2 : dictGet flds2 fn = some v2.1 := by
              rw [← dictGetSized_val, hs2]; rfl
            rw [hd2]
        | some v1 =>
          have hd1 : dictGet flds1 fn = some v1.1 := by
            rw [← dictGetSized_val, hs1]; rfl
          rw [hd1]
          cases hs2 : dictGetSized flds2 fn with
          | none =>
            have hd2 : dictGet flds2 fn = none := by
              rw [← dictGetSized_val, hs2]; rfl
            rw [hd2]
          | some v2 =>
            have hd2 : dictGet flds2 fn = some v2.1 := by
              rw [← dictGetSized_val, hs2]; rfl
            rw [hd2]
            dsimp only
            have hv1b : sizeOf v1.1 < sizeOf flds1 := v1.2
            have hargseq : argsEquiv reg fty v1.1 v2.1 = argsEquiv reg fty v2.1 v1.1 := by
              by_cases hna : fty.namedAny = true
              · rw [hna, if_pos rfl] at hhead
                rw [hs1, hd2] at hhead
                dsimp only at hhead
                cases hfv1 : v1.1 with
                | null =>
                  cases hfv2 : v2.1 <;> simp [argsEquiv, hna]
                | one c1 =>
                  cases hfv2 : v2.1 with
                  | null => simp [argsEquiv, hna]
                  | one c2 =>
                    simp only [argsEquiv, hna, if_pos rfl]
                    rw [hfv1, hfv2] at hhead
                    simp only [valShape] at hhead
                    have hc1 : sizeOf (FieldValue.one c1) = 1 + sizeOf c1 := by
                      simp_arith
                    rw [hfv1] at hv1b
                    exact ih.1 c1 c2 (by omega) hhead
                  | many m2 => simp [argsEquiv, hna]
                | many m1 =>
                  cases hfv2 : v2.1 with
                  | null => simp [argsEquiv, hna]
                  | one c2 => simp [argsEquiv, hna]
                  | many m2 =>
                    simp only [argsEquiv, hna, if_pos rfl]
                    rw [hfv1, hfv2] at hhead
                    simp only [valShape] at hhead
                    have hm1 : sizeOf (FieldValue.many m1) = 1 + sizeOf m1 := by
                      simp_arith
                    rw [hfv1] at hv1b
                    by_cases hlen : m1.length = m2.length
                    · rw [show (m1.length != m2.length) = false by simp [hlen],
                        Bool.false_or] at hhead
                      exact ih.2.1 m1 m2 (by omega) hlen hhead
                    · rw [listEquiv_length_ne reg m1 m2 hlen,
                        listEquiv_length_ne reg m2 m1 (Ne.symm hlen)]
              · rw [Bool.not_eq_true] at hna
                cases v1.1 <;> cases v2.1 <;> simp [argsEquiv, hna]
            rw [hargseq]

/-- Claim C5 (amended): `isEquivalent(A,B) = isEquivalent(B,A)` for any
two converted nodes that are shaped alike (`sameShape`): both dispatch to
the inherited no-op comparison, or both are instances of the same
synthesized class with every pair of values the comparison descends into
shaped alike in turn. Without this proviso symmetry can fail, because the
comparison is driven by the left operand's class alone. -/
theorem C5_theorem (reg : List (String × NodeType)) (a b : PyNode)
    (hsh : sameShape reg a b = true) :
    isEquivalent reg a b = isEquivalent reg b a :=
  (equiv_symm_aux reg (sizeOf a + 1)).1 a b (by omega) hsh

/-- Counterexample for C5: two converted nodes — a `number` leaf and a
content-bearing `call` node, both with text `x` — for which
`isEquivalent` yields `true` in one order (leaf dispatch compares only
text) and `false` in the other (`call` dispatch finds no children
attribute on the leaf). -/
theorem C5_counterexample :
    fromTree regCall false none numTreeX = .ok leafNodeX ∧
    fromTree regCall false none callTreeX = .ok callNodeX ∧
    isEquivalent regCall leafNodeX callNodeX = true ∧
    isEquivalent regCall callNodeX leafNodeX = false := by
  refine ⟨by rfl, by rfl, ?_, ?_⟩ <;>
  simp [isEquivalent, argsEquiv, listEquiv, fieldsEquiv, dictGet, dictGetSized,
    buildNodeTypesByType, errorNodeType, dictSet, NodeType.is_abstract,
    NodeType.has_content, NodeArgsType.toBool, NodeArgsType.namedAny,
    PyNode.childrenAttr, PyNode.getAttr, PyNode.textOf, regCall, leafNodeX,
    callNodeX, numberNT, callNT]

/-- Witness for C5: the amended symmetry theorem applied to two concrete
like-shaped `wrap` nodes. -/
theorem C5_witness :
    sameShape regWrap wrapNode2 wrapNode2b = true ∧
    isEquivalent regWrap wrapNode2 wrapNode2b =
      isEquivalent regWrap wrapNode2b wrapNode2 := by
  have hsh : sameShape regWrap wrapNode2 wrapNode2b = true := by
    simp [sameShape, listShape, fieldsShape, valShape, passive, dictGet,
      dictGetSized, buildNodeTypesByType, errorNodeType, dictSet,
      NodeType.is_abstract, NodeType.has_content, NodeArgsType.toBool,
      NodeArgsType.namedAny, regWrap, wrapNode2, wrapNode2b, wrapNT, numberNT]
  exact ⟨hsh, C5_theorem regWrap wrapNode2 wrapNode2b hsh⟩
